import Mathlib

/-!
Verification development for the taskbook document model and action layer.

The definitions below are a shallow embedding of the TypeScript sources:

* `packages/tasks/src` task model (`TaskModel`, `DataintegrationTaskModel`,
  `NotebookcellTaskModel`): constructors and `toJSON`;
* `TaskList` (`celllist`-style order + entity map with lazy materialization);
* `packages/taskbook/src/widget.ts` (`Taskbook` widget: active index,
  selection, mode, task-event handlers);
* `packages/taskbook/src/actions.ts` (`TaskbookActions` and its `Private`
  namespace).

The backing ordered undoable list (`@jupyterlab/observables`
`IObservableUndoableList`) is an external dependency of the repository and is
modelled from the specification of the OrderedStore component (transactional
list of ids with per-primitive change events that fire identically during
undo/redo, compound grouping to one undo step, and `clearUndo`).

Machine strings and numbers are embedded as Lean `String` and `Int`; JSON
values as the inductive `JVal`.
-/

namespace Taskbook

/-- JSON values, as stored in task metadata and serialized task records. -/
inductive JVal where
  | jNull : JVal
  | jBool : Bool → JVal
  | jInt : Int → JVal
  | jStr : String → JVal
  | jStrArr : List String → JVal
  | jArr : List JVal → JVal
  | jObj : List (String × JVal) → JVal

/-- A JSON object: an ordered key/value record. -/
abbrev JObj := List (String × JVal)

/-- Look a key up in a JSON object (JS property access: `undefined` ↦ `none`). -/
def objLookup (o : JObj) (k : String) : Option JVal :=
  match o with
  | [] => none
  | (k2, v) :: rest => if k2 = k then some v else objLookup rest k

/-- Set a key in a JSON object, replacing an existing entry in place. -/
def objSet (o : JObj) (k : String) (v : JVal) : JObj :=
  match o with
  | [] => [(k, v)]
  | (k2, v2) :: rest => if k2 = k then (k, v) :: rest else (k2, v2) :: objSet rest k v

/-- Delete a key from a JSON object (JS `delete o[k]`). -/
def objErase (o : JObj) (k : String) : JObj :=
  match o with
  | [] => []
  | (k2, v2) :: rest => if k2 = k then objErase rest k else (k2, v2) :: objErase rest k

/-- JavaScript truthiness of a possibly-missing JSON value (`!!v`). -/
def truthy (v : Option JVal) : Bool :=
  match v with
  | none => false
  | some .jNull => false
  | some (.jBool b) => b
  | some (.jInt n) => n != 0
  | some (.jStr s) => s != ""
  | some (.jStrArr _) => true
  | some (.jArr _) => true
  | some (.jObj _) => true

/-- The two task types of `tbformat.TaskType`. -/
inductive TaskType where
  | dataintegration : TaskType
  | notebookcell : TaskType
deriving DecidableEq, Repr

/-- The string written for a task type (`this.type` in the models). -/
def typeName : TaskType → String
  | .dataintegration => "Dataintegration"
  | .notebookcell => "Notebookcell"

/-- In-memory task entity state (`TaskModel` / `DataintegrationTaskModel`).
`executionCount`/`outputs` are only meaningful for `dataintegration` tasks
(the base model has neither; we default them). `disposed` mirrors
`isDisposed` of the Lumino/Phosphor disposable. -/
structure TaskModel where
  id : String
  ttype : TaskType
  text : String
  trusted : Bool
  executionCount : Option Int
  outputs : List JVal
  metadata : JObj
  disposed : Bool

/-- A serialized task record (a `tbformat.IBaseTask` JSON object). -/
abbrev TaskRecord := JObj

/-- The `metadata` sub-object of a record (`task.metadata`), `{}` if absent. -/
def recMetadata (r : TaskRecord) : JObj :=
  match objLookup r "metadata" with
  | some (.jObj o) => o
  | _ => []

/-- The `source` of a record as a single string (string or joined line array,
per the `TaskModel` constructor). -/
def recSource (r : TaskRecord) : String :=
  match objLookup r "source" with
  | some (.jStr s) => s
  | some (.jStrArr ss) => String.join ss
  | _ => ""

/-- `TaskModel.toJSON` (headerfooter.ts): copy the metadata, write `trusted`
back into it when (and only when) the model is trusted, and emit
`task_type`/`source`/`metadata`; `DataintegrationTaskModel.toJSON` appends
`execution_count` and `outputs`. -/
def taskToJSON (t : TaskModel) : TaskRecord :=
  let md := if t.trusted then objSet t.metadata "trusted" (.jBool true) else t.metadata
  let base : TaskRecord :=
    [("task_type", .jStr (typeName t.ttype)),
     ("source", .jStr t.text),
     ("metadata", .jObj md)]
  match t.ttype with
  | .dataintegration =>
      base ++
        [("execution_count", match t.executionCount with
            | some n => .jInt n
            | none => .jNull),
         ("outputs", .jArr t.outputs)]
  | .notebookcell => base

/-- The JS strict-equality test `v === 'code'` on a property value. -/
def isCodeTaskType (v : Option JVal) : Bool :=
  match v with
  | some (.jStr s) => s = "code"
  | _ => false

/-- The `TaskModel` constructor applied to `options = { id, task? }` followed
by the `DataintegrationTaskModel` additions.  From headerfooter.ts:
with no source record the model is untrusted with empty text and metadata;
with a record, `trusted` is set to the truthiness of `task.metadata['trusted']`
which is then deleted from the stored metadata, the text comes from `source`,
and the remaining metadata is copied.  The Dataintegration constructor
restores `execution_count`/`outputs` only under `task.Task_type === 'code'`
(note the capital `T` property and the `'code'` value, neither of which is
ever produced by `toJSON`); otherwise the execution count is `null` and the
output area starts empty. -/
def taskModelCreate (ty : TaskType) (id : String) (rec? : Option TaskRecord) : TaskModel :=
  let base : TaskModel :=
    match rec? with
    | none =>
        { id := id, ttype := ty, text := "", trusted := false,
          executionCount := none, outputs := [], metadata := [], disposed := false }
    | some r =>
        { id := id, ttype := ty,
          text := recSource r,
          trusted := truthy (objLookup (recMetadata r) "trusted"),
          executionCount := none, outputs := [],
          metadata := objErase (recMetadata r) "trusted",
          disposed := false }
  match ty with
  | .dataintegration =>
      match rec? with
      | some r =>
          if isCodeTaskType (objLookup r "Task_type") then
            { base with
              executionCount :=
                match objLookup r "execution_count" with
                | some (.jInt n) => if n = 0 then none else some n
                | _ => none,
              outputs :=
                match objLookup r "outputs" with
                | some (.jArr os) => os
                | _ => [] }
          else base
      | none => base
  | .notebookcell => base

/-- `ContentFactory.createDataintegrationTask` with a fresh id. -/
def createDataintegrationTask (id : String) (rec? : Option TaskRecord) : TaskModel :=
  taskModelCreate .dataintegration id rec?

/-- `ContentFactory.createNotebookcellTask` with a fresh id. -/
def createNotebookcellTask (id : String) (rec? : Option TaskRecord) : TaskModel :=
  taskModelCreate .notebookcell id rec?

/-! ## The ordered undoable store and the TaskList entity cache

`TaskList` keeps `_taskOrder` (an `IObservableUndoableList<string>` of ids)
and `_taskMap` (id → task model).  The undoable list itself lives in the
external `@jupyterlab/observables` package; it is modelled from the spec
(§4.1 OrderedStore): primitive mutations `add`/`remove`/`set`/`move` each
emit one change event, events fire identically during undo/redo, compound
operations group the primitive deltas of one action into a single undo step,
and `clearUndo` discards all history. -/

/-- One primitive structural change of the id order (also the change event
record: `add` carries `newIndex`/`newValues`, `remove` carries
`oldIndex`/`oldValues`, `set` both, `move` the two indices). -/
inductive Delta where
  | dadd : Nat → List String → Delta
  | drem : Nat → List String → Delta
  | dset : Nat → List String → List String → Delta
  | dmove : Nat → Nat → Delta
deriving DecidableEq

/-- Modelled from the spec: the inverse primitive applied by `undo`. -/
def invertDelta : Delta → Delta
  | .dadd i vs => .drem i vs
  | .drem i vs => .dadd i vs
  | .dset i olds news => .dset i news olds
  | .dmove f t => .dmove t f

/-- The ids newly appearing in a change event (`newValues` of `add`/`set`). -/
def newIds : Delta → List String
  | .dadd _ vs => vs
  | .dset _ _ vs => vs
  | _ => []

/-- All ids mentioned by a delta (old and new values). -/
def deltaIds : Delta → List String
  | .dadd _ vs => vs
  | .drem _ vs => vs
  | .dset _ olds news => olds ++ news
  | .dmove _ _ => []

/-- Insert a run of elements at an index (clamped to the length). -/
def insertRun (l : List α) (i : Nat) (xs : List α) : List α :=
  l.take i ++ xs ++ l.drop i

/-- `ArrayExt.move`: take the element at `f` out and re-insert it at `t`.
Out-of-range indices leave the list unchanged (in-range use only). -/
def moveItem (l : List α) (f t : Nat) : List α :=
  match l.get? f with
  | none => l
  | some x => if t < l.length then insertRun (l.eraseIdx f) t [x] else l

/-- Modelled from the spec: the effect of one primitive change on the order. -/
def applyDeltaOrder (l : List String) : Delta → List String
  | .dadd i vs => insertRun l i vs
  | .drem i vs => l.take i ++ l.drop (i + vs.length)
  | .dset i olds news => l.take i ++ news ++ l.drop (i + olds.length)
  | .dmove f t => moveItem l f t

/-- The entity map `_taskMap`.  A key may be present with value `none`: this
mirrors `_taskMap.set(id, task)` with `task` left `undefined` by the
materialization switch in `_onOrderChanged`. -/
abbrev TaskMap := List (String × Option TaskModel)

/-- `_taskMap.get`. -/
def mapLookup (m : TaskMap) (k : String) : Option (Option TaskModel) :=
  match m with
  | [] => none
  | (k2, v) :: rest => if k2 = k then some v else mapLookup rest k

/-- `_taskMap.has`. -/
def mapHas (m : TaskMap) (k : String) : Bool :=
  (mapLookup m k).isSome

/-- `_taskMap.set`. -/
def mapSet (m : TaskMap) (k : String) (v : Option TaskModel) : TaskMap :=
  match m with
  | [] => [(k, v)]
  | (k2, v2) :: rest => if k2 = k then (k, v) :: rest else (k2, v2) :: mapSet rest k v

/-- The shared backing value store: the per-id `'<id>.type'` markers written
by the task model constructor (`modelDB.createValue('type').set(this.type)`
against the factory's modelDB view for that id). -/
abbrev TypeDB := List (String × String)

/-- Read a value from the backing store. -/
def dbLookup (d : TypeDB) (k : String) : Option String :=
  match d with
  | [] => none
  | (k2, v) :: rest => if k2 = k then some v else dbLookup rest k

/-- Write a value to the backing store. -/
def dbSet (d : TypeDB) (k : String) (v : String) : TypeDB :=
  match d with
  | [] => [(k, v)]
  | (k2, v2) :: rest => if k2 = k then (k, v) :: rest else (k2, v2) :: dbSet rest k v

/-- The materialization switch of `TaskList._onOrderChanged`: read the
`'<id>.type'` marker and build the matching entity via the content factory
(the factory recreates the entity keyed by id; its content is reloaded from
the shared store, which we do not track beyond the type).  An unrecognized or
missing marker leaves the local `task` variable unassigned, i.e. `none`. -/
def materialize (d : TypeDB) (id : String) : Option TaskModel :=
  match dbLookup d (id ++ ".type") with
  | some s =>
      if s = "Dataintegration" then some (createDataintegrationTask id none)
      else if s = "Notebookcell" then some (createNotebookcellTask id none)
      else none
  | none => none

/-- The map-reconciliation part of `TaskList._onOrderChanged`: on an `add` or
`set` event, each id of `newValues` not already cached is materialized and
stored (possibly as `undefined`). Other event types leave the map alone. -/
def onOrderEvent (d : TypeDB) (m : TaskMap) (e : Delta) : TaskMap :=
  match e with
  | .dadd _ vs => vs.foldl (fun m id => if mapHas m id then m else mapSet m id (materialize d id)) m
  | .dset _ _ vs => vs.foldl (fun m id => if mapHas m id then m else mapSet m id (materialize d id)) m
  | _ => m

/-! ## The Taskbook widget surface state -/

/-- The interactivity mode of the taskbook. -/
inductive Mode where
  | command : Mode
  | edit : Mode
deriving DecidableEq

/-- The combined program state: the TaskList (order, entity map, backing
type markers, undo machinery of the order list) plus the Taskbook widget
surface (`_activeTaskIndex` as `raw`, `_mode`, and the per-widget selected
properties as the set of selected entity ids).  `modelPresent` is whether the
widget has a model (`this.model`). -/
structure WState where
  modelPresent : Bool
  order : List String
  map : TaskMap
  db : TypeDB
  undoStack : List (List Delta)
  redoStack : List (List Delta)
  depth : Nat
  pending : List Delta
  pendingUndoable : Bool
  raw : Int
  mode : Mode
  selected : List String

/-- `TaskList.get(i)`: `_taskMap.get(_taskOrder.get(i))` (undefined when the
index is out of range, the id is uncached, or the cached value is the
`undefined` left by a failed materialization). -/
def taskListGet (w : WState) (i : Nat) : Option TaskModel :=
  match w.order.get? i with
  | none => none
  | some id =>
      match mapLookup w.map id with
      | some v => v
      | none => none

/-- The `activeTaskIndex` getter: `-1` without a model or with an empty task
list, otherwise the stored `_activeTaskIndex`. -/
def activeIdx (w : WState) : Int :=
  if w.modelPresent then
    if w.order.length = 0 then -1 else w.raw
  else -1

/-- The value stored by the `activeTaskIndex` setter: `-1` without a model or
tasks, else `Math.min(Math.max(newValue, 0), length - 1)`. -/
def resolveActive (w : WState) (v : Int) : Int :=
  if w.modelPresent ∧ w.order.length ≠ 0 then
    min (max v 0) ((w.order.length : Int) - 1)
  else -1

/-- The `activeTaskIndex` setter (state effect: store the resolved index). -/
def setActive (w : WState) (v : Int) : WState :=
  { w with raw := resolveActive w v }

/-- `Taskbook.onTaskInserted`: bump the active index when the insertion
happened at or above it (the assignment always runs through the setter). -/
def wOnTaskInserted (w : WState) (i : Nat) : WState :=
  let g := activeIdx w
  setActive w (if (i : Int) ≤ g then g + 1 else g)

/-- `Taskbook.onTaskRemoved`: drop the active index when the removal happened
at or above it (again through the clamping setter). -/
def wOnTaskRemoved (w : WState) (i : Nat) : WState :=
  let g := activeIdx w
  setActive w (if (i : Int) ≤ g then g - 1 else g)

/-- `Taskbook.onTaskMoved`: follow the moved task only when it was active. -/
def wOnTaskMoved (w : WState) (f t : Nat) : WState :=
  if (f : Int) = activeIdx w then setActive w (t : Int) else w

/-- Forget the selected property of a disposed task widget. -/
def deselectId (w : WState) (id : String) : WState :=
  { w with selected := w.selected.erase id }

/-- `_onTasksChanged` case `'add'`: one `_insertTask` per new value at
`newIndex`, `newIndex + 1`, …. -/
def onAddFold (w : WState) (i : Nat) (n : Nat) : WState :=
  match n with
  | 0 => w
  | Nat.succ m => onAddFold (wOnTaskInserted w i) (i + 1) m

/-- `_onTasksChanged` case `'remove'`: one `_removeTask(oldIndex)` per old
value (the widget at `oldIndex` is detached, `onTaskRemoved` runs, and the
disposed widget's selected property is forgotten). -/
def onRemFold (w : WState) (i : Nat) (ids : List String) : WState :=
  match ids with
  | [] => w
  | id :: rest => onRemFold (deselectId (wOnTaskRemoved w i) id) i rest

/-- `_onTasksChanged` case `'set'`: per replaced position, insert the new
widget at `index` then remove the old widget at `index + 1` (this exact
order is what the source uses), advancing the index. -/
def onSetFold (w : WState) (i : Nat) (olds : List String) : WState :=
  match olds with
  | [] => w
  | o :: rest => onSetFold (deselectId (wOnTaskRemoved (wOnTaskInserted w i) (i + 1)) o) (i + 1) rest

/-- The widget's reaction to one re-emitted TaskList change event
(`Taskbook._onTasksChanged`), when a model is attached. -/
def handleWidgetEvent (w : WState) (e : Delta) : WState :=
  if w.modelPresent then
    match e with
    | .dadd i vs => onAddFold w i vs.length
    | .drem i vs => onRemFold w i vs
    | .dset i olds _ => onSetFold w i olds
    | .dmove f t => wOnTaskMoved w f t
  else w

/-- Apply one primitive order change: mutate the order, reconcile the entity
map (`TaskList._onOrderChanged`), then let the widget react to the re-emitted
event.  This is used identically for forward mutations and for undo/redo
replay, as the spec requires of the OrderedStore events. -/
def applyEvent (w : WState) (e : Delta) : WState :=
  let w2 := { w with order := applyDeltaOrder w.order e, map := onOrderEvent w.db w.map e }
  handleWidgetEvent w2 e

/-- Apply a list of primitive changes in order. -/
def applyEvents (w : WState) (es : List Delta) : WState :=
  es.foldl applyEvent w

/-- Modelled from the spec: record one primitive delta with the undo
machinery of the order list.  Inside a compound operation deltas accumulate
into the pending group; otherwise each delta is its own undo step.  Any new
recorded change invalidates the redo stack. -/
def recordDelta (w : WState) (d : Delta) : WState :=
  if w.depth ≠ 0 then { w with pending := w.pending ++ [d], redoStack := [] }
  else { w with undoStack := w.undoStack ++ [[d]], redoStack := [] }

/-- `TaskList.insert` / `_taskOrder.insert`: cache the entity, then insert its
id (clamped index), emitting one `add` event. -/
def wInsert (w : WState) (i : Nat) (t : TaskModel) : WState :=
  let w := { w with map := mapSet w.map t.id (some t) }
  let j := min i w.order.length
  let e : Delta := .dadd j [t.id]
  recordDelta (applyEvent w e) e

/-- `TaskList.push`: cache the entity and append its id. -/
def wPush (w : WState) (t : TaskModel) : WState :=
  wInsert w w.order.length t

/-- `TaskList.set`: cache the entity and overwrite the id at `i`, emitting one
`set` event (out-of-range indices are undefined behavior upstream; no-op). -/
def wSet (w : WState) (i : Nat) (t : TaskModel) : WState :=
  match w.order.get? i with
  | none => w
  | some old =>
      let w := { w with map := mapSet w.map t.id (some t) }
      let e : Delta := .dset i [old] [t.id]
      recordDelta (applyEvent w e) e

/-- `TaskList.remove`: remove the id at `i` (the entity stays cached — soft
delete), emitting one `remove` event. -/
def wRemove (w : WState) (i : Nat) : WState :=
  match w.order.get? i with
  | none => w
  | some old =>
      let e : Delta := .drem i [old]
      recordDelta (applyEvent w e) e

/-- `TaskList.move`, emitting one `move` event. -/
def wMove (w : WState) (f t : Nat) : WState :=
  if f < w.order.length ∧ t < w.order.length then
    let e : Delta := .dmove f t
    recordDelta (applyEvent w e) e
  else w

/-- `TaskList.clear`: drop every id from the order as one `remove` event. -/
def wClear (w : WState) : WState :=
  match w.order with
  | [] => w
  | _ =>
      let e : Delta := .drem 0 w.order
      recordDelta (applyEvent w e) e

/-- `beginCompoundOperation(isUndoAble?)`; nested calls collapse to the
outermost boundary. -/
def wBegin (w : WState) (undoable : Bool) : WState :=
  if w.depth = 0 then { w with depth := 1, pending := [], pendingUndoable := undoable }
  else { w with depth := w.depth + 1 }

/-- `endCompoundOperation`: closing the outermost boundary pushes the pending
group as one undo step (when undoable and non-empty). -/
def wEnd (w : WState) : WState :=
  match w.depth with
  | 0 => w
  | 1 =>
      if w.pendingUndoable ∧ w.pending ≠ [] then
        { w with depth := 0, pending := [], undoStack := w.undoStack ++ [w.pending] }
      else { w with depth := 0, pending := [] }
  | Nat.succ (Nat.succ k) => { w with depth := Nat.succ k }

/-- `undo`: replay the most recent compound step backwards — the inverse of
each recorded delta, in reverse order, with the events firing exactly like
forward mutations — and move the group to the redo stack. -/
def wUndo (w : WState) : WState :=
  match w.undoStack.getLast? with
  | none => w
  | some g =>
      let w := { w with undoStack := w.undoStack.dropLast, redoStack := w.redoStack ++ [g] }
      applyEvents w (g.reverse.map invertDelta)

/-- `redo`: replay the next compound step forwards and move it back to the
undo stack. -/
def wRedo (w : WState) : WState :=
  match w.redoStack.getLast? with
  | none => w
  | some g =>
      let w := { w with redoStack := w.redoStack.dropLast, undoStack := w.undoStack ++ [g] }
      applyEvents w g

/-- `TaskList.clearUndo`: dispose and evict every cached entity whose id is
not in the current order, then discard all undo history. -/
def wClearUndo (w : WState) : WState :=
  { w with
    map := w.map.filter (fun p => w.order.contains p.1),
    undoStack := [], redoStack := [], pending := [], depth := 0 }

/-- A collaborative insertion delivered by the shared store: the remote
collaborator's task model constructor has written the `'<id>.type'` marker
into the shared store, and the order list syncs an `add` event for the id. -/
def wExternAdd (w : WState) (i : Nat) (id : String) (ty : TaskType) : WState :=
  let w := { w with db := dbSet w.db (id ++ ".type") (typeName ty) }
  let j := min i w.order.length
  let e : Delta := .dadd j [id]
  recordDelta (applyEvent w e) e

/-- A collaborative replacement delivered by the shared store. -/
def wExternSet (w : WState) (i : Nat) (id : String) (ty : TaskType) : WState :=
  match w.order.get? i with
  | none => w
  | some old =>
      let w := { w with db := dbSet w.db (id ++ ".type") (typeName ty) }
      let e : Delta := .dset i [old] [id]
      recordDelta (applyEvent w e) e

/-- The TaskList operations quantified over by the order/cache-coherence
invariant: the public mutators, undo/redo, history clearing, compound
boundaries, and order changes arriving from collaborative sync. -/
inductive TLOp where
  | opInsert : Nat → TaskModel → TLOp
  | opPush : TaskModel → TLOp
  | opSet : Nat → TaskModel → TLOp
  | opRemove : Nat → TLOp
  | opMove : Nat → Nat → TLOp
  | opClear : TLOp
  | opUndo : TLOp
  | opRedo : TLOp
  | opClearUndo : TLOp
  | opBegin : Bool → TLOp
  | opEnd : TLOp
  | opExternAdd : Nat → String → TaskType → TLOp
  | opExternSet : Nat → String → TaskType → TLOp

/-- Interpret one TaskList operation. -/
def applyOp (w : WState) (op : TLOp) : WState :=
  match op with
  | .opInsert i t => wInsert w i t
  | .opPush t => wPush w t
  | .opSet i t => wSet w i t
  | .opRemove i => wRemove w i
  | .opMove f t => wMove w f t
  | .opClear => wClear w
  | .opUndo => wUndo w
  | .opRedo => wRedo w
  | .opClearUndo => wClearUndo w
  | .opBegin u => wBegin w u
  | .opEnd => wEnd w
  | .opExternAdd i id ty => wExternAdd w i id ty
  | .opExternSet i id ty => wExternSet w i id ty

/-- Run a sequence of TaskList operations. -/
def runOps (w : WState) (ops : List TLOp) : WState :=
  ops.foldl applyOp w

/-- A freshly constructed document surface: empty task list, no history, no
selection, command mode, active index `-1`. -/
def initW : WState :=
  { modelPresent := true, order := [], map := [], db := [],
    undoStack := [], redoStack := [], depth := 0, pending := [],
    pendingUndoable := true, raw := -1, mode := .command, selected := [] }

/-- Entities handed to the local mutators are freshly created by the content
factory, hence not disposed. -/
def opWF : TLOp → Prop
  | .opInsert _ t => t.disposed = false
  | .opPush t => t.disposed = false
  | .opSet _ t => t.disposed = false
  | _ => True

instance (op : TLOp) : Decidable (opWF op) := by
  cases op <;> simp [opWF] <;> infer_instance

/-! ## The action layer (`TaskbookActions` / `Private` in actions.ts) -/

/-- Every action is a no-op without a model or without an active task; under
the widget's well-formedness (`_activeTask` tracks the clamped index) an
active task exists exactly when a model is attached and the list is
non-empty. -/
def canAct (w : WState) : Bool :=
  w.modelPresent && w.order.length != 0

/-- `Taskbook.deselectAll`: clear every widget's selected property, then
re-assign the active index to itself (`this.activeTaskIndex =
this.activeTaskIndex`) to make sure it is valid. -/
def deselectAll (w : WState) : WState :=
  let w := { w with selected := [] }
  setActive w (activeIdx w)

/-- The `Taskbook.mode` setter: without an active task the value is forced to
`'command'`; a change to `'edit'` deselects all tasks. -/
def setMode (w : WState) (m : Mode) : WState :=
  let m := if canAct w then m else .command
  if m = w.mode then w
  else
    let w := { w with mode := m }
    if m = .edit then { w with selected := [] } else w

/-- `Taskbook.isSelected` for the widget at position `i`: the active task
counts as selected, as does a widget whose selected property is set. -/
def isSelectedIdx (w : WState) (i : Nat) : Bool :=
  (activeIdx w == (i : Int)) ||
    (match w.order.get? i with
     | some id => w.selected.contains id
     | none => false)

/-- `metadata.get('deletable') !== false`. -/
def deletableNotFalse (t : TaskModel) : Bool :=
  match objLookup t.metadata "deletable" with
  | some (.jBool false) => false
  | _ => true

/-- Strip leading and trailing newline characters
(`.replace(/^\n+/, '').replace(/\n+$/, '')`). -/
def trimNewlines (s : String) : String :=
  let cs := s.toList.dropWhile (fun c => c = '\n')
  String.mk ((cs.reverse.dropWhile (fun c => c = '\n')).reverse)

/-- `Private.cloneTask`: re-create a task of the same type from its
serialized form (no modelDB or id is passed, so the clone gets a fresh id
and a fresh backing store). -/
def cloneTask (freshId : String) (t : TaskModel) : TaskModel :=
  taskModelCreate t.ttype freshId (some (taskToJSON t))

/-- `TaskbookActions.splitTask`, with the editor cursor offset and the two
fresh uuids chosen by the clones' constructors as parameters.  The original
task is replaced by the first clone and the second clone is inserted after
it, inside one compound operation; then the active index is incremented. -/
def splitTaskAction (w : WState) (offset : Nat) (id0 id1 : String) : WState :=
  if canAct w then
    let w := deselectAll w
    let index : Nat := (activeIdx w).toNat
    match taskListGet w index with
    | none => w
    | some child =>
        let clone0 := cloneTask id0 child
        let clone1 := cloneTask id1 child
        let clone0 := if clone0.ttype = TaskType.dataintegration then { clone0 with outputs := [] } else clone0
        let clone0 := { clone0 with text := trimNewlines (child.text.take offset) }
        let clone1 := { clone1 with text := trimNewlines (child.text.drop offset) }
        let w := wBegin w true
        let w := wSet w index clone0
        let w := wInsert w (index + 1) clone1
        let w := wEnd w
        setActive w (activeIdx w + 1)
  else w

/-- The indices collected by `Private.deleteTasks`: selected widgets whose
metadata does not set `deletable` to `false`. -/
def collectDeletable (w : WState) : List Nat :=
  (List.range w.order.length).filter (fun i =>
    isSelectedIdx w i &&
      (match taskListGet w i with
       | some t => deletableNotFalse t
       | none => false))

/-- `Private.deleteTasks`: switch to command mode, collect the deletable
selected indices, remove them in descending order as one compound operation
(re-seeding one default Dataintegration task inside the same compound
operation when the list empties), set the active index to the head of the
reversed index list, and deselect everything. -/
def deleteTasksPrivate (w : WState) (newId : String) : WState :=
  let w := setMode w .command
  let toDelete := collectDeletable w
  let w :=
    if toDelete ≠ [] then
      let rev := toDelete.reverse
      let w := wBegin w true
      let w := rev.foldl wRemove w
      let w := if w.order.length = 0 then wPush w (createDataintegrationTask newId none) else w
      let w := wEnd w
      setActive w ((rev.headD 0 : Nat) : Int)
    else w
  deselectAll w

/-- `TaskbookActions.deleteTasks`. -/
def deleteTasksAction (w : WState) (newId : String) : WState :=
  if canAct w then deleteTasksPrivate w newId else w

/-- The entity-materialization loop of `TaskbookActions.paste`: the switch
reads the (nonexistent) `Task_type` property of each clipboard record; a
`'Dataintegration'` match builds the task from the record, a `'Notebookcell'`
match builds a blank task ignoring the record, anything else (including the
`undefined` read off records serialized with `task_type`) is skipped. -/
def pasteMaterialize (payload : List TaskRecord) (fresh : List String) : List TaskModel :=
  match payload, fresh with
  | [], _ => []
  | _, [] => []
  | r :: rs, f :: fs =>
      match objLookup r "Task_type" with
      | some (.jStr s) =>
          if s = "Dataintegration" then createDataintegrationTask f (some r) :: pasteMaterialize rs fs
          else if s = "Notebookcell" then createNotebookcellTask f none :: pasteMaterialize rs fs
          else pasteMaterialize rs fs
      | _ => pasteMaterialize rs fs

/-- `TaskbookActions.paste`, with the clipboard payload and the fresh ids for
the materialized entities as parameters.  An empty payload models a clipboard
without task data (`hasData` fails). -/
def pasteAction (w : WState) (payload : List TaskRecord) (fresh : List String) : WState :=
  if canAct w then
    if payload.isEmpty then w
    else
      let w := setMode w .command
      let newTasks := pasteMaterialize payload fresh
      let i0 : Nat := (activeIdx w).toNat
      let w := wBegin w true
      let w := (newTasks.foldl (fun (p : WState × Nat) t => (wInsert p.1 (p.2 + 1) t, p.2 + 1)) (w, i0)).1
      let w := wEnd w
      let w := setActive w (activeIdx w + newTasks.length)
      deselectAll w
  else w

/-- The per-widget body of `Private.changeTaskType`, iterated over the live
widget list (whose length is fixed by the surrounding sets): a selected
widget of a differing type is serialized, rebuilt as the target type, forced
untrusted when converting Dataintegration → Notebookcell, and set in place. -/
def changeLoop (w : WState) (v : TaskType) (fresh : Nat → String) (i : Nat) (fuel : Nat) : WState :=
  match fuel with
  | 0 => w
  | Nat.succ rest =>
      let w2 :=
        if isSelectedIdx w i then
          match taskListGet w i with
          | some child =>
              if child.ttype ≠ v then
                let record := taskToJSON child
                let nt := taskModelCreate v (fresh i) (some record)
                let nt :=
                  if v = TaskType.notebookcell ∧ child.ttype = TaskType.dataintegration then
                    { nt with trusted := false }
                  else nt
                wSet w i nt
              else w
          | none => w
        else w
      changeLoop w2 v fresh (i + 1) rest

/-- `TaskbookActions.changeTaskType` (guard) + `Private.changeTaskType`
(compound loop then deselect), with the fresh ids parameterized by index. -/
def changeTaskTypeAction (w : WState) (v : TaskType) (fresh : Nat → String) : WState :=
  if canAct w then
    let w2 := wBegin w true
    let w2 := changeLoop w2 v fresh 0 w2.order.length
    let w2 := wEnd w2
    deselectAll w2
  else w

/-- `TaskbookActions.undo`: guard, command mode, `tasks.undo()`, deselect. -/
def undoAction (w : WState) : WState :=
  if canAct w then deselectAll (wUndo (setMode w .command)) else w

/-- `TaskbookActions.redo`: guard, command mode, `tasks.redo()`, deselect. -/
def redoAction (w : WState) : WState :=
  if canAct w then deselectAll (wRedo (setMode w .command)) else w

/-! ## The run outcome model (`Private.runSelected` / `Private.runTask`)

Modelled from the spec for the execution capability boundary:
`DataintegrationTask.execute` submits the task's text and its future settles
with an `ExecuteOutcome` carrying a status string (`'ok'`/`'error'`/
`'abort'`).  `Private.runTask` maps each settled outcome to a boolean;
`Private.runSelected` issues all submissions, joins them with `Promise.all`,
and computes the overall flag with an early-exit loop over the settled
results. -/

/-- The settled outcome of one external execution. -/
inductive ExecOutcome where
  | replyStatus : String → ExecOutcome
deriving DecidableEq

/-- `Private.runTask`: a Notebookcell task just renders (success); a
Dataintegration task with a session resolves with `status === 'ok'`; without
a session it clears its execution count and counts as success. -/
def runTask (hasSession : Bool) (t : TaskModel) (o : ExecOutcome) : TaskModel × Bool :=
  match t.ttype with
  | .notebookcell => (t, true)
  | .dataintegration =>
      if hasSession then
        match o with
        | .replyStatus s => (t, s == "ok")
      else ({ t with executionCount := none }, true)

/-- The result loop at the end of `Private.runSelected`:
`for (let result of results) { if (!result) return false; } return true`. -/
def allResultsTrue : List Bool → Bool
  | [] => true
  | b :: rest => if !b then false else allResultsTrue rest

/-- `Private.runSelected`, reduced to its outcome semantics: every selected
task's submission is issued and the joined promise carries the settled
per-task results; the overall flag is `false` for a disposed widget and
otherwise the early-exit conjunction of the individual results. -/
def runSelectedModel (hasSession : Bool) (pairs : List (TaskModel × ExecOutcome))
    (widgetDisposed : Bool) : List (TaskModel × Bool) × Bool :=
  let results := pairs.map (fun p => runTask hasSession p.1 p.2)
  (results, if widgetDisposed then false else allResultsTrue (results.map (fun r => r.2)))

/-! ## Test fixtures -/

/-- A bare task entity with the given id, type and text. -/
def mkTask (id : String) (ty : TaskType) (text : String) : TaskModel :=
  { id := id, ttype := ty, text := text, trusted := false, executionCount := none,
    outputs := [], metadata := [], disposed := false }

/-- A settled document surface holding the given tasks, with no undo history,
command mode, stored active index `raw` and explicitly selected ids
`selected`.  The backing store holds each task's type marker, as written by
the task model constructors. -/
def mkDoc (tasks : List TaskModel) (raw : Int) (selected : List String) : WState :=
  { modelPresent := true,
    order := tasks.map (fun t => t.id),
    map := tasks.map (fun t => (t.id, some t)),
    db := tasks.map (fun t => (t.id ++ ".type", typeName t.ttype)),
    undoStack := [], redoStack := [], depth := 0, pending := [],
    pendingUndoable := true, raw := raw, mode := .command, selected := selected }

/-! ## List index lemmas for the order transformations -/

theorem insertRun_length (l : List α) (i : Nat) (xs : List α) :
    (insertRun l i xs).length = l.length + xs.length := by
  simp [insertRun]
  omega

theorem insertRun_get_lt (l : List α) (i : Nat) (xs : List α) (j : Nat)
    (hj : j < i) (hi : i ≤ l.length) :
    (insertRun l i xs).get? j = l.get? j := by
  have hlen : (l.take i).length = i := by simp; omega
  rw [insertRun, List.append_assoc, List.get?_append (by omega), List.get?_take hj]

theorem insertRun_get_ge (l : List α) (i : Nat) (xs : List α) (j : Nat)
    (hj : i ≤ j) (hi : i ≤ l.length) :
    (insertRun l i xs).get? (j + xs.length) = l.get? j := by
  have hlen : (l.take i).length = i := by simp; omega
  rw [insertRun, List.append_assoc, List.get?_append_right (by omega)]
  rw [List.get?_append_right (by simp; omega)]
  rw [List.get?_drop]
  congr 1
  simp
  omega

theorem eraseRun_get_lt (l : List α) (i n j : Nat) (hj : j < i) (hi : i ≤ l.length) :
    (l.take i ++ l.drop (i + n)).get? j = l.get? j := by
  have hlen : (l.take i).length = i := by simp; omega
  rw [List.get?_append (by omega), List.get?_take hj]

theorem eraseRun_get_ge (l : List α) (i n j : Nat) (hj : i ≤ j) (hi : i ≤ l.length) :
    (l.take i ++ l.drop (i + n)).get? j = l.get? (j + n) := by
  have hlen : (l.take i).length = i := by simp; omega
  rw [List.get?_append_right (by omega), List.get?_drop]
  congr 1
  omega

theorem eraseRun_length (l : List α) (i n : Nat) (hi : i + n ≤ l.length) :
    (l.take i ++ l.drop (i + n)).length = l.length - n := by
  simp
  omega

theorem insertRun_get_self (l : List α) (t : Nat) (x : α) (ht : t ≤ l.length) :
    (insertRun l t [x]).get? t = some x := by
  have hlen : (l.take t).length = t := by simp; omega
  rw [insertRun, List.append_assoc, List.get?_append_right (by omega)]
  simp [hlen]

/-! ## Claim C7: active-index clamping -/

/-- **C7.** Assigning any integer `v` to `activeTaskIndex` stores
`max(0, min(v, length - 1))` when a model is present and the task list is
non-empty, and `-1` when there is no model or the list is empty; reading
`activeTaskIndex` yields the same resolved value, and yields `-1` whenever
the list is empty. -/
theorem activeIndex_clamp (w : WState) (v : Int) :
    (w.modelPresent = true → w.order.length ≠ 0 →
      (setActive w v).raw = max 0 (min v ((w.order.length : Int) - 1)) ∧
      activeIdx (setActive w v) = max 0 (min v ((w.order.length : Int) - 1))) ∧
    ((w.modelPresent = false ∨ w.order.length = 0) → (setActive w v).raw = -1) ∧
    (w.order.length = 0 → activeIdx w = -1) := by
  refine ⟨fun hm h0 => ?_, fun h => ?_, fun h0 => ?_⟩
  · have h1 : (1 : Int) ≤ (w.order.length : Int) := by
      exact_mod_cast Nat.one_le_iff_ne_zero.mpr h0
    have hr : (setActive w v).raw = max 0 (min v ((w.order.length : Int) - 1)) := by
      show resolveActive w v = _
      rw [resolveActive, if_pos ⟨hm, h0⟩]
      omega
    refine ⟨hr, ?_⟩
    have h2 : activeIdx (setActive w v) = (setActive w v).raw := by
      show (if w.modelPresent then if w.order.length = 0 then -1 else (setActive w v).raw
        else -1) = (setActive w v).raw
      rw [if_pos hm, if_neg h0]
    rw [h2, hr]
  · show resolveActive w v = -1
    rw [resolveActive, if_neg]
    rintro ⟨hm, h0⟩
    rcases h with h | h
    · rw [h] at hm
      cases hm
    · exact h0 h
  · simp [activeIdx, h0]

/-- Witness for C7 at a concrete three-task document and `v = 99`. -/
theorem activeIndex_clamp_witness :
    ((mkDoc [mkTask "a" .dataintegration "", mkTask "b" .dataintegration "",
       mkTask "c" .dataintegration ""] 0 []).modelPresent = true ∧
      (mkDoc [mkTask "a" .dataintegration "", mkTask "b" .dataintegration "",
        mkTask "c" .dataintegration ""] 0 []).order.length ≠ 0) ∧
    (setActive (mkDoc [mkTask "a" .dataintegration "", mkTask "b" .dataintegration "",
       mkTask "c" .dataintegration ""] 0 []) 99).raw = max 0 (min 99 2) := by
  refine ⟨⟨rfl, by decide⟩, ?_⟩
  have h := (activeIndex_clamp (mkDoc [mkTask "a" .dataintegration "",
    mkTask "b" .dataintegration "", mkTask "c" .dataintegration ""] 0 []) 99).1 rfl (by decide)
  exact h.1

/-! ## Claim C2: missing or unrecognized type markers -/

/-- **C2 is violated by the code** (the spec calls for a surfaced fatal
consistency error).  Delivering an `add` order change for an id whose
`'<id>.type'` marker is absent from the backing store leaves the id in the
order, records it in the entity map with no entity behind it
(`_taskMap.set(id, task)` with `task` never assigned by the marker switch,
which has no error branch and no default), and `TaskList.get` yields
`undefined` for it: the id stays in the order without a renderable entity,
and nothing in `TaskList` raises an error. -/
theorem missingTypeMarker_silent_hole :
    (applyEvent (mkDoc [] (-1) []) (.dadd 0 ["x"])).order = ["x"] ∧
    mapHas (applyEvent (mkDoc [] (-1) []) (.dadd 0 ["x"])).map "x" = true ∧
    materialize (mkDoc [] (-1) []).db "x" = none ∧
    taskListGet (applyEvent (mkDoc [] (-1) []) (.dadd 0 ["x"])) 0 = none :=
  ⟨rfl, rfl, rfl, rfl⟩

/-! ## Claim C5: paste -/

/-- The three-task document used for the paste evaluation. -/
def pasteDoc : WState :=
  mkDoc [mkTask "x0" .dataintegration "p", mkTask "x1" .dataintegration "q",
    mkTask "x2" .dataintegration "r"] 1 []

/-- **C5 is violated by the code** (paste is documented to insert the
clipboard tasks below the active task).  Clipboard payloads are produced by
`copy`/`cut` via `TaskModel.toJSON`, which writes the type discriminator
under `task_type`; `paste` switches on the nonexistent `Task_type` property,
so no case matches: zero entities are materialized, nothing is inserted, and
the active index gains zero.  Evaluated on a one-record Dataintegration
payload against a three-task document with active index 1. -/
theorem paste_materializes_nothing :
    pasteMaterialize [taskToJSON (mkTask "t0" .dataintegration "a=1")] ["f1", "f2"] = [] ∧
    (pasteAction pasteDoc [taskToJSON (mkTask "t0" .dataintegration "a=1")] ["f1", "f2"]).order
      = pasteDoc.order ∧
    (pasteAction pasteDoc [taskToJSON (mkTask "t0" .dataintegration "a=1")] ["f1", "f2"]).raw
      = pasteDoc.raw :=
  ⟨rfl, rfl, rfl⟩

/-! ## Frame lemmas: the widget handler only touches `raw` and `selected` -/

theorem activeIdx_pos (w : WState) (hm : w.modelPresent = true) (h0 : w.order.length ≠ 0) :
    activeIdx w = w.raw := by
  rw [activeIdx, if_pos hm, if_neg h0]

theorem resolveActive_pos (w : WState) (hm : w.modelPresent = true)
    (h0 : w.order.length ≠ 0) (v : Int) :
    resolveActive w v = min (max v 0) ((w.order.length : Int) - 1) := by
  rw [resolveActive, if_pos ⟨hm, h0⟩]

theorem setActive_shape (w : WState) (v : Int) :
    setActive w v = { w with raw := resolveActive w v } := rfl

theorem onAddFold_shape (n : Nat) : ∀ (w : WState) (i : Nat),
    ∃ r, onAddFold w i n = { w with raw := r } := by
  induction n with
  | zero => exact fun w i => ⟨w.raw, rfl⟩
  | succ m ih =>
      intro w i
      obtain ⟨r, hr⟩ := ih (wOnTaskInserted w i) (i + 1)
      exact ⟨r, hr⟩

theorem onRemFold_shape (ids : List String) : ∀ (w : WState) (i : Nat),
    ∃ r s, onRemFold w i ids = { w with raw := r, selected := s } := by
  induction ids with
  | nil => exact fun w i => ⟨w.raw, w.selected, rfl⟩
  | cons id rest ih =>
      intro w i
      obtain ⟨r, s, hr⟩ := ih (deselectId (wOnTaskRemoved w i) id) i
      exact ⟨r, s, hr⟩

theorem onSetFold_shape (olds : List String) : ∀ (w : WState) (i : Nat),
    ∃ r s, onSetFold w i olds = { w with raw := r, selected := s } := by
  induction olds with
  | nil => exact fun w i => ⟨w.raw, w.selected, rfl⟩
  | cons o rest ih =>
      intro w i
      obtain ⟨r, s, hr⟩ := ih (deselectId (wOnTaskRemoved (wOnTaskInserted w i) (i + 1)) o) (i + 1)
      exact ⟨r, s, hr⟩

theorem handleWidgetEvent_shape (w : WState) (e : Delta) :
    ∃ r s, handleWidgetEvent w e = { w with raw := r, selected := s } := by
  by_cases hmp : w.modelPresent
  · cases e with
    | dadd i vs =>
        obtain ⟨r, hr⟩ := onAddFold_shape vs.length w i
        refine ⟨r, w.selected, ?_⟩
        unfold handleWidgetEvent
        rw [if_pos hmp]
        exact hr
    | drem i vs =>
        obtain ⟨r, s, hr⟩ := onRemFold_shape vs w i
        refine ⟨r, s, ?_⟩
        unfold handleWidgetEvent
        rw [if_pos hmp]
        exact hr
    | dset i olds news =>
        obtain ⟨r, s, hr⟩ := onSetFold_shape olds w i
        refine ⟨r, s, ?_⟩
        unfold handleWidgetEvent
        rw [if_pos hmp]
        exact hr
    | dmove f t =>
        by_cases hf : (f : Int) = activeIdx w
        · refine ⟨resolveActive w t, w.selected, ?_⟩
          unfold handleWidgetEvent
          rw [if_pos hmp]
          show wOnTaskMoved w f t = _
          rw [wOnTaskMoved, if_pos hf]
          rfl
        · refine ⟨w.raw, w.selected, ?_⟩
          unfold handleWidgetEvent
          rw [if_pos hmp]
          show wOnTaskMoved w f t = _
          rw [wOnTaskMoved, if_neg hf]
  · refine ⟨w.raw, w.selected, ?_⟩
    unfold handleWidgetEvent
    rw [if_neg hmp]

theorem applyEvent_order (w : WState) (e : Delta) :
    (applyEvent w e).order = applyDeltaOrder w.order e := by
  unfold applyEvent
  obtain ⟨r, s, hr⟩ := handleWidgetEvent_shape
    { w with order := applyDeltaOrder w.order e, map := onOrderEvent w.db w.map e } e
  rw [hr]

theorem applyEvent_map (w : WState) (e : Delta) :
    (applyEvent w e).map = onOrderEvent w.db w.map e := by
  unfold applyEvent
  obtain ⟨r, s, hr⟩ := handleWidgetEvent_shape
    { w with order := applyDeltaOrder w.order e, map := onOrderEvent w.db w.map e } e
  rw [hr]

theorem applyEvent_db (w : WState) (e : Delta) : (applyEvent w e).db = w.db := by
  unfold applyEvent
  obtain ⟨r, s, hr⟩ := handleWidgetEvent_shape
    { w with order := applyDeltaOrder w.order e, map := onOrderEvent w.db w.map e } e
  rw [hr]

theorem applyEvent_undoStack (w : WState) (e : Delta) :
    (applyEvent w e).undoStack = w.undoStack := by
  unfold applyEvent
  obtain ⟨r, s, hr⟩ := handleWidgetEvent_shape
    { w with order := applyDeltaOrder w.order e, map := onOrderEvent w.db w.map e } e
  rw [hr]

theorem applyEvent_redoStack (w : WState) (e : Delta) :
    (applyEvent w e).redoStack = w.redoStack := by
  unfold applyEvent
  obtain ⟨r, s, hr⟩ := handleWidgetEvent_shape
    { w with order := applyDeltaOrder w.order e, map := onOrderEvent w.db w.map e } e
  rw [hr]

theorem applyEvent_depth (w : WState) (e : Delta) : (applyEvent w e).depth = w.depth := by
  unfold applyEvent
  obtain ⟨r, s, hr⟩ := handleWidgetEvent_shape
    { w with order := applyDeltaOrder w.order e, map := onOrderEvent w.db w.map e } e
  rw [hr]

theorem applyEvent_pending (w : WState) (e : Delta) : (applyEvent w e).pending = w.pending := by
  unfold applyEvent
  obtain ⟨r, s, hr⟩ := handleWidgetEvent_shape
    { w with order := applyDeltaOrder w.order e, map := onOrderEvent w.db w.map e } e
  rw [hr]

theorem applyEvent_mode (w : WState) (e : Delta) : (applyEvent w e).mode = w.mode := by
  unfold applyEvent
  obtain ⟨r, s, hr⟩ := handleWidgetEvent_shape
    { w with order := applyDeltaOrder w.order e, map := onOrderEvent w.db w.map e } e
  rw [hr]

theorem applyEvent_modelPresent (w : WState) (e : Delta) :
    (applyEvent w e).modelPresent = w.modelPresent := by
  unfold applyEvent
  obtain ⟨r, s, hr⟩ := handleWidgetEvent_shape
    { w with order := applyDeltaOrder w.order e, map := onOrderEvent w.db w.map e } e
  rw [hr]

theorem applyEvent_pendingUndoable (w : WState) (e : Delta) :
    (applyEvent w e).pendingUndoable = w.pendingUndoable := by
  unfold applyEvent
  obtain ⟨r, s, hr⟩ := handleWidgetEvent_shape
    { w with order := applyDeltaOrder w.order e, map := onOrderEvent w.db w.map e } e
  rw [hr]

/-! ## Association-list lemmas (JSON objects, the entity map, the store) -/

theorem objLookup_objSet_self (m : JObj) (k : String) (v : JVal) :
    objLookup (objSet m k v) k = some v := by
  induction m with
  | nil => simp [objSet, objLookup]
  | cons p rest ih =>
      obtain ⟨k2, v2⟩ := p
      by_cases h : k2 = k
      · simp [objSet, objLookup, h]
      · simp [objSet, objLookup, h, ih]

theorem objErase_objSet_self (m : JObj) (k : String) (v : JVal) :
    objErase (objSet m k v) k = objErase m k := by
  induction m with
  | nil => simp [objSet, objErase]
  | cons p rest ih =>
      obtain ⟨k2, v2⟩ := p
      by_cases h : k2 = k
      · simp [objSet, objErase, h]
      · simp [objSet, objErase, h, ih]

theorem objErase_of_lookup_none (m : JObj) (k : String) (h : objLookup m k = none) :
    objErase m k = m := by
  induction m with
  | nil => rfl
  | cons p rest ih =>
      obtain ⟨k2, v2⟩ := p
      by_cases hk : k2 = k
      · rw [objLookup, if_pos hk] at h
        cases h
      · rw [objLookup, if_neg hk] at h
        rw [objErase, if_neg hk, ih h]

theorem mapLookup_mapSet_self (m : TaskMap) (k : String) (v : Option TaskModel) :
    mapLookup (mapSet m k v) k = some v := by
  induction m with
  | nil => simp [mapSet, mapLookup]
  | cons p rest ih =>
      obtain ⟨k2, v2⟩ := p
      by_cases h : k2 = k
      · simp [mapSet, mapLookup, h]
      · simp [mapSet, mapLookup, h, ih]

theorem mapLookup_mapSet_other (m : TaskMap) (k k2 : String) (v : Option TaskModel)
    (h : k ≠ k2) : mapLookup (mapSet m k v) k2 = mapLookup m k2 := by
  induction m with
  | nil => simp [mapSet, mapLookup, h]
  | cons p rest ih =>
      obtain ⟨k3, v3⟩ := p
      by_cases h3 : k3 = k
      · subst h3
        simp [mapSet, mapLookup, h]
      · rw [mapSet, if_neg h3]
        by_cases h32 : k3 = k2
        · rw [mapLookup, if_pos h32, mapLookup, if_pos h32]
        · rw [mapLookup, if_neg h32, mapLookup, if_neg h32, ih]

theorem mapHas_mapSet_self (m : TaskMap) (k : String) (v : Option TaskModel) :
    mapHas (mapSet m k v) k = true := by
  rw [mapHas, mapLookup_mapSet_self]
  rfl

/-- Reconciliation is a no-op when every newly-appearing id is cached. -/
theorem onOrderEvent_cached (d : TypeDB) (m : TaskMap) (e : Delta)
    (h : ∀ id ∈ newIds e, mapHas m id = true) : onOrderEvent d m e = m := by
  have hfold : ∀ (vs : List String) (m : TaskMap), (∀ id ∈ vs, mapHas m id = true) →
      vs.foldl (fun m id => if mapHas m id then m else mapSet m id (materialize d id)) m = m := by
    intro vs
    induction vs with
    | nil => intro m _; rfl
    | cons id rest ih =>
        intro m hm
        have h1 : mapHas m id = true := hm id (List.Mem.head _)
        show rest.foldl _ (if mapHas m id then m else _) = m
        rw [if_pos h1]
        exact ih m (fun i hi => hm i (List.Mem.tail _ hi))
  cases e with
  | dadd i vs => exact hfold vs m (by simpa [newIds] using h)
  | dset i olds news => exact hfold news m (by simpa [newIds] using h)
  | drem i vs => rfl
  | dmove f t => rfl

/-! ## recordDelta frame lemmas -/

theorem recordDelta_order (w : WState) (d : Delta) : (recordDelta w d).order = w.order := by
  rw [recordDelta]; split <;> rfl

theorem recordDelta_map (w : WState) (d : Delta) : (recordDelta w d).map = w.map := by
  rw [recordDelta]; split <;> rfl

theorem recordDelta_db (w : WState) (d : Delta) : (recordDelta w d).db = w.db := by
  rw [recordDelta]; split <;> rfl

theorem recordDelta_raw (w : WState) (d : Delta) : (recordDelta w d).raw = w.raw := by
  rw [recordDelta]; split <;> rfl

theorem recordDelta_mode (w : WState) (d : Delta) : (recordDelta w d).mode = w.mode := by
  rw [recordDelta]; split <;> rfl

theorem recordDelta_selected (w : WState) (d : Delta) :
    (recordDelta w d).selected = w.selected := by
  rw [recordDelta]; split <;> rfl

theorem recordDelta_depth (w : WState) (d : Delta) : (recordDelta w d).depth = w.depth := by
  rw [recordDelta]; split <;> rfl

theorem recordDelta_modelPresent (w : WState) (d : Delta) :
    (recordDelta w d).modelPresent = w.modelPresent := by
  rw [recordDelta]; split <;> rfl

theorem recordDelta_pendingUndoable (w : WState) (d : Delta) :
    (recordDelta w d).pendingUndoable = w.pendingUndoable := by
  rw [recordDelta]; split <;> rfl

theorem recordDelta_pos (w : WState) (d : Delta) (h : w.depth ≠ 0) :
    (recordDelta w d).pending = w.pending ++ [d] ∧
    (recordDelta w d).undoStack = w.undoStack ∧ (recordDelta w d).redoStack = [] := by
  rw [recordDelta, if_pos h]
  exact ⟨rfl, rfl, rfl⟩

/-! ## Single-event reductions of `applyEvent` (model present) -/

theorem applyEvent_dadd_red (w : WState) (i : Nat) (id : String) (hm : w.modelPresent = true) :
    applyEvent w (.dadd i [id]) = wOnTaskInserted { w with order := insertRun w.order i [id], map := onOrderEvent w.db w.map (.dadd i [id]) } i := by
  unfold applyEvent handleWidgetEvent
  rw [if_pos (show ({ w with order := applyDeltaOrder w.order (.dadd i [id]), map := onOrderEvent w.db w.map (.dadd i [id]) } : WState).modelPresent = true from hm)]
  rfl

theorem applyEvent_drem_red (w : WState) (i : Nat) (id : String) (hm : w.modelPresent = true) :
    applyEvent w (.drem i [id]) = deselectId (wOnTaskRemoved { w with order := w.order.take i ++ w.order.drop (i + 1), map := onOrderEvent w.db w.map (.drem i [id]) } i) id := by
  unfold applyEvent handleWidgetEvent
  rw [if_pos (show ({ w with order := applyDeltaOrder w.order (.drem i [id]), map := onOrderEvent w.db w.map (.drem i [id]) } : WState).modelPresent = true from hm)]
  rfl

theorem applyEvent_dset_red (w : WState) (i : Nat) (o n : String) (hm : w.modelPresent = true) :
    applyEvent w (.dset i [o] [n]) = deselectId (wOnTaskRemoved (wOnTaskInserted { w with order := w.order.take i ++ [n] ++ w.order.drop (i + 1), map := onOrderEvent w.db w.map (.dset i [o] [n]) } i) (i + 1)) o := by
  unfold applyEvent handleWidgetEvent
  rw [if_pos (show ({ w with order := applyDeltaOrder w.order (.dset i [o] [n]), map := onOrderEvent w.db w.map (.dset i [o] [n]) } : WState).modelPresent = true from hm)]
  rfl

/-! ## Per-event effect on the stored active index -/

theorem setRun_length (l : List String) (i : Nat) (o n : String) (hi : i < l.length) :
    (applyDeltaOrder l (.dset i [o] [n])).length = l.length := by
  show (l.take i ++ [n] ++ l.drop (i + 1)).length = l.length
  simp
  omega

theorem setRun_get_self (l : List String) (i : Nat) (o n : String) (hi : i < l.length) :
    (applyDeltaOrder l (.dset i [o] [n])).get? i = some n := by
  show (l.take i ++ [n] ++ l.drop (i + 1)).get? i = some n
  have hlen : (l.take i).length = i := by simp; omega
  rw [List.append_assoc, List.get?_append_right (by omega)]
  simp [hlen]

theorem setRun_get_lt (l : List String) (i j : Nat) (o n : String)
    (hi : i < l.length) (hj : j < i) :
    (applyDeltaOrder l (.dset i [o] [n])).get? j = l.get? j := by
  show (l.take i ++ [n] ++ l.drop (i + 1)).get? j = l.get? j
  have hlen : (l.take i).length = i := by simp; omega
  rw [List.append_assoc, List.get?_append (by omega), List.get?_take hj]

theorem setRun_get_gt (l : List String) (i j : Nat) (o n : String)
    (hi : i < l.length) (hj : i < j) :
    (applyDeltaOrder l (.dset i [o] [n])).get? j = l.get? j := by
  show (l.take i ++ [n] ++ l.drop (i + 1)).get? j = l.get? j
  have hlen : (l.take i ++ [n]).length = i + 1 := by simp; omega
  rw [List.get?_append_right (by simp; omega), List.get?_drop]
  congr 1
  simp
  omega

theorem applyEvent_dadd_raw_single (w : WState) (a i : Nat) (id : String)
    (hm : w.modelPresent = true) (hraw : w.raw = (a : Int)) (ha : a < w.order.length)
    (hi : i ≤ w.order.length) :
    (applyEvent w (.dadd i [id])).raw = if i ≤ a then (a : Int) + 1 else (a : Int) := by
  rw [applyEvent_dadd_red w i id hm]
  set w2 : WState := { w with order := insertRun w.order i [id], map := onOrderEvent w.db w.map (.dadd i [id]) } with hw2
  have hm2 : w2.modelPresent = true := hm
  have hraw2 : w2.raw = (a : Int) := hraw
  have hL1 : w2.order.length = w.order.length + 1 := by
    simpa using insertRun_length w.order i [id]
  have hup : (wOnTaskInserted w2 i).raw = resolveActive w2 (if (i : Int) ≤ (a : Int) then (a : Int) + 1 else (a : Int)) := by
    rw [wOnTaskInserted, activeIdx_pos w2 hm2 (by omega), hraw2]
    rfl
  rw [hup, resolveActive_pos w2 hm2 (by omega)]
  rw [show (w2.order.length : Int) = (w.order.length : Int) + 1 from by exact_mod_cast hL1]
  by_cases hia : i ≤ a
  · rw [if_pos (by exact_mod_cast hia), if_pos hia]
    omega
  · rw [if_neg (by exact_mod_cast hia), if_neg hia]
    omega

theorem applyEvent_dset_raw_single (w : WState) (a i : Nat) (o n : String)
    (hm : w.modelPresent = true) (hraw : w.raw = (a : Int)) (ha : a < w.order.length)
    (hi : i < w.order.length) :
    (applyEvent w (.dset i [o] [n])).raw =
      if i < a ∧ a = w.order.length - 1 then (a : Int) - 1 else (a : Int) := by
  rw [applyEvent_dset_red w i o n hm]
  set w2 : WState := { w with order := w.order.take i ++ [n] ++ w.order.drop (i + 1), map := onOrderEvent w.db w.map (.dset i [o] [n]) } with hw2
  have hm2 : w2.modelPresent = true := hm
  have hraw2 : w2.raw = (a : Int) := hraw
  have hL1 : w2.order.length = w.order.length := setRun_length w.order i o n hi
  have hup : (wOnTaskInserted w2 i).raw = resolveActive w2 (if (i : Int) ≤ (a : Int) then (a : Int) + 1 else (a : Int)) := by
    rw [wOnTaskInserted, activeIdx_pos w2 hm2 (by omega), hraw2]
    rfl
  have hupfull : wOnTaskInserted w2 i = { w2 with raw := resolveActive w2 (if (i : Int) ≤ (a : Int) then (a : Int) + 1 else (a : Int)) } := by
    rw [wOnTaskInserted, activeIdx_pos w2 hm2 (by omega), hraw2]
    rfl
  rw [hupfull]
  set r1 : Int := resolveActive w2 (if (i : Int) ≤ (a : Int) then (a : Int) + 1 else (a : Int)) with hr1def
  set w3 : WState := { w2 with raw := r1 } with hw3
  have hm3 : w3.modelPresent = true := hm
  have hlen3 : w3.order.length = w.order.length := hL1
  have hr1 : r1 = min (max (if (i : Int) ≤ (a : Int) then (a : Int) + 1 else (a : Int)) 0) ((w.order.length : Int) - 1) := by
    rw [hr1def, resolveActive_pos w2 hm2 (by omega)]
    rw [show (w2.order.length : Int) = (w.order.length : Int) from by exact_mod_cast hL1]
  have hdown : (deselectId (wOnTaskRemoved w3 (i + 1)) o).raw = resolveActive w3 (if ((i + 1 : Nat) : Int) ≤ r1 then r1 - 1 else r1) := by
    show (wOnTaskRemoved w3 (i + 1)).raw = _
    rw [wOnTaskRemoved, activeIdx_pos w3 hm3 (by omega)]
    rfl
  rw [hdown, resolveActive_pos w3 hm3 (by omega)]
  rw [show (w3.order.length : Int) = (w.order.length : Int) from by exact_mod_cast hlen3]
  rw [hr1]
  by_cases hc : i < a ∧ a = w.order.length - 1
  · rw [if_pos hc]
    obtain ⟨hia, halast⟩ := hc
    have h1 : ((i : Int) ≤ (a : Int)) := by exact_mod_cast Nat.le_of_lt hia
    rw [if_pos h1]
    have hlen1 : a + 1 = w.order.length := by omega
    have hmin : min (max ((a : Int) + 1) 0) ((w.order.length : Int) - 1) = (a : Int) := by
      omega
    rw [hmin, if_pos (by exact_mod_cast hia)]
    omega
  · rw [if_neg hc]
    push_neg at hc
    by_cases hia : i ≤ a
    · have h1 : ((i : Int) ≤ (a : Int)) := by exact_mod_cast hia
      rw [if_pos h1]
      by_cases hieq : i = a
      · subst hieq
        by_cases hlast : i = w.order.length - 1
        · have hmin : min (max ((i : Int) + 1) 0) ((w.order.length : Int) - 1) = (i : Int) := by
            omega
          rw [hmin, if_neg (by omega)]
          omega
        · have hmin : min (max ((i : Int) + 1) 0) ((w.order.length : Int) - 1) = (i : Int) + 1 := by
            omega
          rw [hmin, if_pos (by omega)]
          omega
      · have hlt : i < a := lt_of_le_of_ne hia hieq
        have hnotlast : a ≠ w.order.length - 1 := hc hlt
        have hmin : min (max ((a : Int) + 1) 0) ((w.order.length : Int) - 1) = (a : Int) + 1 := by
          omega
        rw [hmin, if_pos (by omega)]
        omega
    · have h1 : ¬ ((i : Int) ≤ (a : Int)) := by exact_mod_cast hia
      rw [if_neg h1]
      have hmin : min (max (a : Int) 0) ((w.order.length : Int) - 1) = (a : Int) := by omega
      rw [hmin, if_neg (by omega)]
      omega

/-! ## Operation-level component lemmas -/

theorem setActive_order (w : WState) (v : Int) : (setActive w v).order = w.order := rfl

theorem setActive_map (w : WState) (v : Int) : (setActive w v).map = w.map := rfl

theorem setActive_undoStack (w : WState) (v : Int) :
    (setActive w v).undoStack = w.undoStack := rfl

theorem deselectAll_order (w : WState) : (deselectAll w).order = w.order := rfl

theorem deselectAll_map (w : WState) : (deselectAll w).map = w.map := rfl

theorem deselectAll_db (w : WState) : (deselectAll w).db = w.db := rfl

theorem deselectAll_undoStack (w : WState) : (deselectAll w).undoStack = w.undoStack := rfl

theorem deselectAll_depth (w : WState) : (deselectAll w).depth = w.depth := rfl

theorem deselectAll_mode (w : WState) : (deselectAll w).mode = w.mode := rfl

theorem deselectAll_modelPresent (w : WState) : (deselectAll w).modelPresent = w.modelPresent := rfl

theorem deselectAll_pendingUndoable (w : WState) :
    (deselectAll w).pendingUndoable = w.pendingUndoable := rfl

theorem deselectAll_pending (w : WState) : (deselectAll w).pending = w.pending := rfl

theorem deselectAll_selected (w : WState) : (deselectAll w).selected = [] := rfl

/-- `deselectAll` on a well-formed non-empty surface keeps the stored index. -/
theorem deselectAll_raw (w : WState) (a : Nat) (hm : w.modelPresent = true)
    (hraw : w.raw = (a : Int)) (ha : a < w.order.length) :
    (deselectAll w).raw = (a : Int) := by
  show resolveActive { w with selected := [] } (activeIdx { w with selected := [] }) = _
  rw [activeIdx_pos { w with selected := [] } hm (by show w.order.length ≠ 0; omega)]
  rw [resolveActive_pos { w with selected := [] } hm (by show w.order.length ≠ 0; omega)]
  show min (max w.raw 0) ((w.order.length : Int) - 1) = _
  rw [hraw]
  omega

theorem wBegin_shape (w : WState) (u : Bool) :
    ∃ d p pu, wBegin w u = { w with depth := d, pending := p, pendingUndoable := pu } := by
  rw [wBegin]
  split
  · exact ⟨1, [], u, rfl⟩
  · exact ⟨w.depth + 1, w.pending, w.pendingUndoable, rfl⟩

theorem wBegin_order (w : WState) (u : Bool) : (wBegin w u).order = w.order := by
  obtain ⟨d, p, pu, h⟩ := wBegin_shape w u
  rw [h]

theorem wBegin_map (w : WState) (u : Bool) : (wBegin w u).map = w.map := by
  obtain ⟨d, p, pu, h⟩ := wBegin_shape w u
  rw [h]

theorem wBegin_db (w : WState) (u : Bool) : (wBegin w u).db = w.db := by
  obtain ⟨d, p, pu, h⟩ := wBegin_shape w u
  rw [h]

theorem wBegin_undoStack (w : WState) (u : Bool) : (wBegin w u).undoStack = w.undoStack := by
  obtain ⟨d, p, pu, h⟩ := wBegin_shape w u
  rw [h]

theorem wBegin_raw (w : WState) (u : Bool) : (wBegin w u).raw = w.raw := by
  obtain ⟨d, p, pu, h⟩ := wBegin_shape w u
  rw [h]

theorem wBegin_mode (w : WState) (u : Bool) : (wBegin w u).mode = w.mode := by
  obtain ⟨d, p, pu, h⟩ := wBegin_shape w u
  rw [h]

theorem wBegin_modelPresent (w : WState) (u : Bool) :
    (wBegin w u).modelPresent = w.modelPresent := by
  obtain ⟨d, p, pu, h⟩ := wBegin_shape w u
  rw [h]

theorem wBegin_selected (w : WState) (u : Bool) : (wBegin w u).selected = w.selected := by
  obtain ⟨d, p, pu, h⟩ := wBegin_shape w u
  rw [h]

theorem wBegin_zero (w : WState) (u : Bool) (h : w.depth = 0) :
    wBegin w u = { w with depth := 1, pending := [], pendingUndoable := u } := by
  rw [wBegin, if_pos h]

theorem wEnd_shape (w : WState) :
    ∃ d p us, wEnd w = { w with depth := d, pending := p, undoStack := us } := by
  rw [wEnd.eq_def]
  split
  · exact ⟨w.depth, w.pending, w.undoStack, rfl⟩
  · split
    · exact ⟨0, [], w.undoStack ++ [w.pending], rfl⟩
    · exact ⟨0, [], w.undoStack, rfl⟩
  · next k _ => exact ⟨Nat.succ k, w.pending, w.undoStack, rfl⟩

theorem wEnd_order (w : WState) : (wEnd w).order = w.order := by
  obtain ⟨d, p, us, h⟩ := wEnd_shape w
  rw [h]

theorem wEnd_map (w : WState) : (wEnd w).map = w.map := by
  obtain ⟨d, p, us, h⟩ := wEnd_shape w
  rw [h]

theorem wEnd_db (w : WState) : (wEnd w).db = w.db := by
  obtain ⟨d, p, us, h⟩ := wEnd_shape w
  rw [h]

theorem wEnd_raw (w : WState) : (wEnd w).raw = w.raw := by
  obtain ⟨d, p, us, h⟩ := wEnd_shape w
  rw [h]

theorem wEnd_mode (w : WState) : (wEnd w).mode = w.mode := by
  obtain ⟨d, p, us, h⟩ := wEnd_shape w
  rw [h]

theorem wEnd_modelPresent (w : WState) : (wEnd w).modelPresent = w.modelPresent := by
  obtain ⟨d, p, us, h⟩ := wEnd_shape w
  rw [h]

theorem wEnd_selected (w : WState) : (wEnd w).selected = w.selected := by
  obtain ⟨d, p, us, h⟩ := wEnd_shape w
  rw [h]

theorem wEnd_one_push (w : WState) (h : w.depth = 1) (hu : w.pendingUndoable = true)
    (hp : w.pending ≠ []) :
    wEnd w = { w with depth := 0, pending := [], undoStack := w.undoStack ++ [w.pending] } := by
  rw [wEnd.eq_def, h]
  rw [if_pos ⟨hu, hp⟩]

/-- `wSet` at a valid index, reduced to its primitive parts. -/
theorem wSet_eq (w : WState) (i : Nat) (t : TaskModel) (cid : String)
    (hc : w.order.get? i = some cid) :
    wSet w i t = recordDelta (applyEvent { w with map := mapSet w.map t.id (some t) } (.dset i [cid] [t.id])) (.dset i [cid] [t.id]) := by
  unfold wSet
  rw [hc]

theorem wSet_order (w : WState) (i : Nat) (t : TaskModel) (cid : String)
    (hc : w.order.get? i = some cid) :
    (wSet w i t).order = w.order.take i ++ [t.id] ++ w.order.drop (i + 1) := by
  rw [wSet_eq w i t cid hc, recordDelta_order, applyEvent_order]
  rfl

theorem wSet_map (w : WState) (i : Nat) (t : TaskModel) (cid : String)
    (hc : w.order.get? i = some cid) :
    (wSet w i t).map = mapSet w.map t.id (some t) := by
  rw [wSet_eq w i t cid hc, recordDelta_map, applyEvent_map]
  refine onOrderEvent_cached _ _ _ (fun id hid => ?_)
  simp only [newIds, List.mem_singleton] at hid
  subst hid
  exact mapHas_mapSet_self _ _ _

theorem wSet_db (w : WState) (i : Nat) (t : TaskModel) (cid : String)
    (hc : w.order.get? i = some cid) : (wSet w i t).db = w.db := by
  rw [wSet_eq w i t cid hc, recordDelta_db, applyEvent_db]

theorem wSet_depth (w : WState) (i : Nat) (t : TaskModel) (cid : String)
    (hc : w.order.get? i = some cid) : (wSet w i t).depth = w.depth := by
  rw [wSet_eq w i t cid hc, recordDelta_depth, applyEvent_depth]

theorem wSet_mode (w : WState) (i : Nat) (t : TaskModel) (cid : String)
    (hc : w.order.get? i = some cid) : (wSet w i t).mode = w.mode := by
  rw [wSet_eq w i t cid hc, recordDelta_mode, applyEvent_mode]

theorem wSet_modelPresent (w : WState) (i : Nat) (t : TaskModel) (cid : String)
    (hc : w.order.get? i = some cid) : (wSet w i t).modelPresent = w.modelPresent := by
  rw [wSet_eq w i t cid hc, recordDelta_modelPresent, applyEvent_modelPresent]

theorem wSet_pendingUndoable (w : WState) (i : Nat) (t : TaskModel) (cid : String)
    (hc : w.order.get? i = some cid) : (wSet w i t).pendingUndoable = w.pendingUndoable := by
  rw [wSet_eq w i t cid hc, recordDelta_pendingUndoable, applyEvent_pendingUndoable]

theorem wSet_compound (w : WState) (i : Nat) (t : TaskModel) (cid : String)
    (hc : w.order.get? i = some cid) (hd : w.depth ≠ 0) :
    (wSet w i t).pending = w.pending ++ [.dset i [cid] [t.id]] ∧
    (wSet w i t).undoStack = w.undoStack ∧ (wSet w i t).redoStack = [] := by
  rw [wSet_eq w i t cid hc]
  have hd2 : (applyEvent { w with map := mapSet w.map t.id (some t) } (.dset i [cid] [t.id])).depth ≠ 0 := by
    rw [applyEvent_depth]
    exact hd
  obtain ⟨h1, h2, h3⟩ := recordDelta_pos _ (.dset i [cid] [t.id]) hd2
  rw [h1, h2, h3, applyEvent_pending, applyEvent_undoStack]
  exact ⟨rfl, rfl, rfl⟩

theorem wSet_raw (w : WState) (a i : Nat) (t : TaskModel) (cid : String)
    (hc : w.order.get? i = some cid) (hm : w.modelPresent = true)
    (hraw : w.raw = (a : Int)) (ha : a < w.order.length) (hi : i < w.order.length) :
    (wSet w i t).raw =
      if i < a ∧ a = w.order.length - 1 then (a : Int) - 1 else (a : Int) := by
  rw [wSet_eq w i t cid hc, recordDelta_raw]
  exact applyEvent_dset_raw_single { w with map := mapSet w.map t.id (some t) } a i cid t.id hm hraw ha hi

/-- `wInsert`, reduced to its primitive parts. -/
theorem wInsert_eq (w : WState) (i : Nat) (t : TaskModel) :
    wInsert w i t = recordDelta (applyEvent { w with map := mapSet w.map t.id (some t) } (.dadd (min i w.order.length) [t.id])) (.dadd (min i w.order.length) [t.id]) := rfl

theorem wInsert_order (w : WState) (i : Nat) (t : TaskModel) :
    (wInsert w i t).order = insertRun w.order (min i w.order.length) [t.id] := by
  rw [wInsert_eq, recordDelta_order, applyEvent_order]
  rfl

theorem wInsert_map (w : WState) (i : Nat) (t : TaskModel) :
    (wInsert w i t).map = mapSet w.map t.id (some t) := by
  rw [wInsert_eq, recordDelta_map, applyEvent_map]
  refine onOrderEvent_cached _ _ _ (fun id hid => ?_)
  simp only [newIds, List.mem_singleton] at hid
  subst hid
  exact mapHas_mapSet_self _ _ _

theorem wInsert_db (w : WState) (i : Nat) (t : TaskModel) : (wInsert w i t).db = w.db := by
  rw [wInsert_eq, recordDelta_db, applyEvent_db]

theorem wInsert_depth (w : WState) (i : Nat) (t : TaskModel) :
    (wInsert w i t).depth = w.depth := by
  rw [wInsert_eq, recordDelta_depth, applyEvent_depth]

theorem wInsert_mode (w : WState) (i : Nat) (t : TaskModel) :
    (wInsert w i t).mode = w.mode := by
  rw [wInsert_eq, recordDelta_mode, applyEvent_mode]

theorem wInsert_modelPresent (w : WState) (i : Nat) (t : TaskModel) :
    (wInsert w i t).modelPresent = w.modelPresent := by
  rw [wInsert_eq, recordDelta_modelPresent, applyEvent_modelPresent]

theorem wInsert_pendingUndoable (w : WState) (i : Nat) (t : TaskModel) :
    (wInsert w i t).pendingUndoable = w.pendingUndoable := by
  rw [wInsert_eq, recordDelta_pendingUndoable, applyEvent_pendingUndoable]

theorem wInsert_compound (w : WState) (i : Nat) (t : TaskModel) (hd : w.depth ≠ 0) :
    (wInsert w i t).pending = w.pending ++ [.dadd (min i w.order.length) [t.id]] ∧
    (wInsert w i t).undoStack = w.undoStack ∧ (wInsert w i t).redoStack = [] := by
  rw [wInsert_eq]
  have hd2 : (applyEvent { w with map := mapSet w.map t.id (some t) } (.dadd (min i w.order.length) [t.id])).depth ≠ 0 := by
    rw [applyEvent_depth]
    exact hd
  obtain ⟨h1, h2, h3⟩ := recordDelta_pos _ _ hd2
  rw [h1, h2, h3, applyEvent_pending, applyEvent_undoStack]
  exact ⟨rfl, rfl, rfl⟩

theorem wInsert_raw (w : WState) (a i : Nat) (t : TaskModel) (hm : w.modelPresent = true)
    (hraw : w.raw = (a : Int)) (ha : a < w.order.length) (hi : i ≤ w.order.length) :
    (wInsert w i t).raw = if i ≤ a then (a : Int) + 1 else (a : Int) := by
  rw [wInsert_eq, recordDelta_raw]
  rw [show min i w.order.length = i from by omega]
  exact applyEvent_dadd_raw_single { w with map := mapSet w.map t.id (some t) } a i t.id hm hraw ha hi

/-- `wRemove` at a valid index, reduced to its primitive parts. -/
theorem wRemove_eq (w : WState) (i : Nat) (oldid : String)
    (hc : w.order.get? i = some oldid) :
    wRemove w i = recordDelta (applyEvent w (.drem i [oldid])) (.drem i [oldid]) := by
  unfold wRemove
  rw [hc]

theorem wRemove_order (w : WState) (i : Nat) (oldid : String)
    (hc : w.order.get? i = some oldid) :
    (wRemove w i).order = w.order.take i ++ w.order.drop (i + 1) := by
  rw [wRemove_eq w i oldid hc, recordDelta_order, applyEvent_order]
  rfl

theorem wRemove_map (w : WState) (i : Nat) (oldid : String)
    (hc : w.order.get? i = some oldid) : (wRemove w i).map = w.map := by
  rw [wRemove_eq w i oldid hc, recordDelta_map, applyEvent_map]
  rfl

theorem wRemove_db (w : WState) (i : Nat) (oldid : String)
    (hc : w.order.get? i = some oldid) : (wRemove w i).db = w.db := by
  rw [wRemove_eq w i oldid hc, recordDelta_db, applyEvent_db]

theorem wRemove_depth (w : WState) (i : Nat) (oldid : String)
    (hc : w.order.get? i = some oldid) : (wRemove w i).depth = w.depth := by
  rw [wRemove_eq w i oldid hc, recordDelta_depth, applyEvent_depth]

theorem wRemove_mode (w : WState) (i : Nat) (oldid : String)
    (hc : w.order.get? i = some oldid) : (wRemove w i).mode = w.mode := by
  rw [wRemove_eq w i oldid hc, recordDelta_mode, applyEvent_mode]

theorem wRemove_modelPresent (w : WState) (i : Nat) (oldid : String)
    (hc : w.order.get? i = some oldid) : (wRemove w i).modelPresent = w.modelPresent := by
  rw [wRemove_eq w i oldid hc, recordDelta_modelPresent, applyEvent_modelPresent]

theorem wRemove_pendingUndoable (w : WState) (i : Nat) (oldid : String)
    (hc : w.order.get? i = some oldid) :
    (wRemove w i).pendingUndoable = w.pendingUndoable := by
  rw [wRemove_eq w i oldid hc, recordDelta_pendingUndoable, applyEvent_pendingUndoable]

theorem wRemove_compound (w : WState) (i : Nat) (oldid : String)
    (hc : w.order.get? i = some oldid) (hd : w.depth ≠ 0) :
    (wRemove w i).pending = w.pending ++ [.drem i [oldid]] ∧
    (wRemove w i).undoStack = w.undoStack ∧ (wRemove w i).redoStack = [] := by
  rw [wRemove_eq w i oldid hc]
  have hd2 : (applyEvent w (.drem i [oldid])).depth ≠ 0 := by
    rw [applyEvent_depth]
    exact hd
  obtain ⟨h1, h2, h3⟩ := recordDelta_pos _ _ hd2
  rw [h1, h2, h3, applyEvent_pending, applyEvent_undoStack]
  exact ⟨rfl, rfl, rfl⟩

/-! ## Rebuilding a task from its own serialization -/

/-- Building a task of type `v` from `toJSON` of a live task `t` (the clone
path of `splitTask` and the conversion path of `changeTaskType`): the new
entity carries `t`'s text, trust flag and metadata (live entities never store
a `trusted` metadata key — the constructor deletes it — which is the
`hmd` hypothesis), and starts with empty outputs and a null execution count,
since the constructor's `Task_type === 'code'` check never matches a record
serialized with `task_type`. -/
theorem createFromJSON_fields (v : TaskType) (idX : String) (t : TaskModel)
    (hmd : objLookup t.metadata "trusted" = none) :
    (taskModelCreate v idX (some (taskToJSON t))).id = idX ∧
    (taskModelCreate v idX (some (taskToJSON t))).ttype = v ∧
    (taskModelCreate v idX (some (taskToJSON t))).text = t.text ∧
    (taskModelCreate v idX (some (taskToJSON t))).trusted = t.trusted ∧
    (taskModelCreate v idX (some (taskToJSON t))).metadata = t.metadata ∧
    (taskModelCreate v idX (some (taskToJSON t))).outputs = [] ∧
    (taskModelCreate v idX (some (taskToJSON t))).executionCount = none ∧
    (taskModelCreate v idX (some (taskToJSON t))).disposed = false := by
  obtain ⟨tid, ty, tx, tr, ec, outs, md, disp⟩ := t
  simp only [TaskModel.mk.injEq] at hmd ⊢
  cases v <;> cases ty <;> cases tr <;>
    simp [taskModelCreate, taskToJSON, recMetadata, recSource, objLookup, isCodeTaskType,
      truthy, objLookup_objSet_self, objErase_objSet_self,
      objErase_of_lookup_none _ _ hmd, hmd]

/-! ## Claim C4: splitTask -/

/-- **C4.**  `splitTask` on a surface with active index `a` holding entity
`child` (cursor offset `offset`, fresh clone ids `id0 ≠ id1`, not inside a
compound operation): the order becomes the original with position `a`
replaced by the two clone ids; the length grows by one; exactly one compound
undo step is pushed, holding the `set` at `a` and the `insert` at `a + 1`;
the new active index is `a + 1`; and the entities at `a` and `a + 1` are
clones of `child` (same type, trust flag and metadata) whose texts are the
two cursor-split halves each stripped of leading/trailing newlines, with
empty outputs (the first half is explicitly cleared for Executable tasks; a
clone never carries outputs to begin with). -/
theorem splitTask_spec (w : WState) (offset : Nat) (id0 id1 : String) (a : Nat)
    (cid : String) (child : TaskModel)
    (hm : w.modelPresent = true) (hdepth : w.depth = 0)
    (hraw : w.raw = (a : Int)) (ha : a < w.order.length)
    (hcid : w.order.get? a = some cid) (hchild : mapLookup w.map cid = some (some child))
    (hmd : objLookup child.metadata "trusted" = none) (hne : id0 ≠ id1) :
    (splitTaskAction w offset id0 id1).order
      = w.order.take a ++ id0 :: id1 :: w.order.drop (a + 1) ∧
    (splitTaskAction w offset id0 id1).order.length = w.order.length + 1 ∧
    (splitTaskAction w offset id0 id1).undoStack
      = w.undoStack ++ [[.dset a [cid] [id0], .dadd (a + 1) [id1]]] ∧
    (splitTaskAction w offset id0 id1).raw = (a : Int) + 1 ∧
    (∃ t0 t1, taskListGet (splitTaskAction w offset id0 id1) a = some t0 ∧
      taskListGet (splitTaskAction w offset id0 id1) (a + 1) = some t1 ∧
      t0.text = trimNewlines (child.text.take offset) ∧
      t1.text = trimNewlines (child.text.drop offset) ∧
      t0.ttype = child.ttype ∧ t1.ttype = child.ttype ∧
      t0.trusted = child.trusted ∧ t1.trusted = child.trusted ∧
      t0.metadata = child.metadata ∧ t1.metadata = child.metadata ∧
      t0.outputs = [] ∧ t1.outputs = []) := by
  have hL0 : w.order.length ≠ 0 := by omega
  have hcan : canAct w = true := by
    rw [canAct, hm]
    simp [hL0]
  have hdmp : (deselectAll w).modelPresent = true := hm
  have hdlen : (deselectAll w).order.length = w.order.length := rfl
  have hdr : (deselectAll w).raw = (a : Int) := deselectAll_raw w a hm hraw ha
  have hidx : (activeIdx (deselectAll w)).toNat = a := by
    rw [activeIdx_pos (deselectAll w) hdmp (by rw [hdlen]; exact hL0), hdr]
    simp
  have hget0 : taskListGet (deselectAll w) a = some child := by
    simp only [taskListGet, deselectAll_order, deselectAll_map, hcid, hchild]
  -- reduce the action to its body
  unfold splitTaskAction
  rw [if_pos hcan]
  simp only [hidx, hget0]
  -- name the clones
  set C0p : TaskModel := cloneTask id0 child with hC0p
  set C1p : TaskModel := cloneTask id1 child with hC1p
  have hF0 := createFromJSON_fields child.ttype id0 child hmd
  have hF1 := createFromJSON_fields child.ttype id1 child hmd
  obtain ⟨hF0id, hF0ty, hF0tx, hF0tr, hF0md, hF0out, hF0ec, hF0disp⟩ := hF0
  obtain ⟨hF1id, hF1ty, hF1tx, hF1tr, hF1md, hF1out, hF1ec, hF1disp⟩ := hF1
  set C0a : TaskModel := if C0p.ttype = TaskType.dataintegration then { C0p with outputs := [] } else C0p with hC0a
  have hC0aid : C0a.id = id0 := by
    rw [hC0a]
    split <;> exact hF0id
  have hC0aty : C0a.ttype = child.ttype := by
    rw [hC0a]
    split <;> exact hF0ty
  have hC0atr : C0a.trusted = child.trusted := by
    rw [hC0a]
    split <;> exact hF0tr
  have hC0amd : C0a.metadata = child.metadata := by
    rw [hC0a]
    split <;> exact hF0md
  have hC0aout : C0a.outputs = [] := by
    rw [hC0a]
    split
    · rfl
    · exact hF0out
  set C0 : TaskModel := { C0a with text := trimNewlines (child.text.take offset) } with hC0
  set C1 : TaskModel := { C1p with text := trimNewlines (child.text.drop offset) } with hC1
  have hC0id : C0.id = id0 := hC0aid
  have hC1id : C1.id = id1 := hF1id
  -- stage 1: begin compound
  set S1 : WState := wBegin (deselectAll w) true with hS1def
  have hS1 : S1 = { deselectAll w with depth := 1, pending := [], pendingUndoable := true } :=
    wBegin_zero _ _ (by rw [deselectAll_depth]; exact hdepth)
  have hS1order : S1.order = w.order := by rw [hS1]; rfl
  have hS1map : S1.map = w.map := by rw [hS1]; rfl
  have hS1raw : S1.raw = (a : Int) := by rw [hS1]; exact hdr
  have hS1mp : S1.modelPresent = true := by rw [hS1]; exact hm
  have hS1depth : S1.depth = 1 := by rw [hS1]
  have hS1pending : S1.pending = [] := by rw [hS1]
  have hS1undo : S1.undoStack = w.undoStack := by rw [hS1]; rfl
  have hS1pu : S1.pendingUndoable = true := by rw [hS1]
  have hc1 : S1.order.get? a = some cid := by rw [hS1order]; exact hcid
  -- stage 2: set the first clone at a
  set S2 : WState := wSet S1 a C0 with hS2def
  have hS2order : S2.order = w.order.take a ++ [id0] ++ w.order.drop (a + 1) := by
    rw [hS2def, wSet_order S1 a C0 cid hc1, hS1order, hC0id]
  have hS2len : S2.order.length = w.order.length := by
    rw [hS2order]
    simp
    omega
  have hS2map : S2.map = mapSet w.map id0 (some C0) := by
    rw [hS2def, wSet_map S1 a C0 cid hc1, hS1map, hC0id]
  have hS2mp : S2.modelPresent = true := by
    rw [hS2def, wSet_modelPresent S1 a C0 cid hc1]
    exact hS1mp
  have hS2raw : S2.raw = (a : Int) := by
    rw [hS2def, wSet_raw S1 a a C0 cid hc1 hS1mp hS1raw (by rw [hS1order]; omega) (by rw [hS1order]; omega)]
    rw [if_neg (by omega)]
  have hS2depth : S2.depth = 1 := by
    rw [hS2def, wSet_depth S1 a C0 cid hc1]
    exact hS1depth
  have hS2comp := wSet_compound S1 a C0 cid hc1 (by rw [hS1depth]; omega)
  have hS2pending : S2.pending = [.dset a [cid] [id0]] := by
    rw [hS2def, hS2comp.1, hS1pending, hC0id]
    rfl
  have hS2undo : S2.undoStack = w.undoStack := by
    rw [hS2def, hS2comp.2.1, hS1undo]
  have hS2pu : S2.pendingUndoable = true := by
    rw [hS2def, wSet_pendingUndoable S1 a C0 cid hc1]
    exact hS1pu
  -- stage 3: insert the second clone at a + 1
  set S3 : WState := wInsert S2 (a + 1) C1 with hS3def
  have hmin3 : min (a + 1) S2.order.length = a + 1 := by
    rw [hS2len]
    omega
  have hS3order : S3.order = w.order.take a ++ id0 :: id1 :: w.order.drop (a + 1) := by
    rw [hS3def, wInsert_order, hmin3, hC1id, hS2order, insertRun]
    have htk : (w.order.take a).length = a := by simp; omega
    rw [@List.take_left' _ (w.order.take a ++ [id0]) (w.order.drop (a + 1)) (a + 1) (by simp [htk])]
    rw [@List.drop_left' _ (w.order.take a ++ [id0]) (w.order.drop (a + 1)) (a + 1) (by simp [htk])]
    simp
  have hS3len : S3.order.length = w.order.length + 1 := by
    rw [hS3order]
    simp
    omega
  have hS3map : S3.map = mapSet (mapSet w.map id0 (some C0)) id1 (some C1) := by
    rw [hS3def, wInsert_map, hS2map, hC1id]
  have hS3mp : S3.modelPresent = true := by
    rw [hS3def, wInsert_modelPresent]
    exact hS2mp
  have hS3raw : S3.raw = (a : Int) := by
    rw [hS3def, wInsert_raw S2 a (a + 1) C1 hS2mp hS2raw (by omega) (by rw [hS2len]; omega)]
    rw [if_neg (by omega)]
  have hS3depth : S3.depth = 1 := by
    rw [hS3def, wInsert_depth]
    exact hS2depth
  have hS3comp := wInsert_compound S2 (a + 1) C1 (by rw [hS2depth]; omega)
  have hS3pending : S3.pending = [.dset a [cid] [id0], .dadd (a + 1) [id1]] := by
    rw [hS3def, hS3comp.1, hS2pending, hmin3, hC1id]
    rfl
  have hS3undo : S3.undoStack = w.undoStack := by
    rw [hS3def, hS3comp.2.1, hS2undo]
  have hS3pu : S3.pendingUndoable = true := by
    rw [hS3def, wInsert_pendingUndoable]
    exact hS2pu
  -- stage 4: close the compound
  set S4 : WState := wEnd S3 with hS4def
  have hS4 : S4 = { S3 with depth := 0, pending := [], undoStack := S3.undoStack ++ [S3.pending] } := by
    rw [hS4def]
    exact wEnd_one_push S3 hS3depth hS3pu (by rw [hS3pending]; simp)
  have hS4order : S4.order = w.order.take a ++ id0 :: id1 :: w.order.drop (a + 1) := by
    rw [hS4]
    exact hS3order
  have hS4len : S4.order.length = w.order.length + 1 := by
    rw [hS4]
    exact hS3len
  have hS4map : S4.map = mapSet (mapSet w.map id0 (some C0)) id1 (some C1) := by
    rw [hS4]
    exact hS3map
  have hS4mp : S4.modelPresent = true := by
    rw [hS4]
    exact hS3mp
  have hS4raw : S4.raw = (a : Int) := by
    rw [hS4]
    exact hS3raw
  have hS4undo : S4.undoStack = w.undoStack ++ [[.dset a [cid] [id0], .dadd (a + 1) [id1]]] := by
    rw [hS4]
    show S3.undoStack ++ [S3.pending] = _
    rw [hS3undo, hS3pending]
  -- stage 5: activate the second clone
  have hact4 : activeIdx S4 = (a : Int) := by
    rw [activeIdx_pos S4 hS4mp (by omega)]
    exact hS4raw
  have hfinraw : (setActive S4 (activeIdx S4 + 1)).raw = (a : Int) + 1 := by
    show resolveActive S4 _ = _
    rw [hact4, resolveActive_pos S4 hS4mp (by omega)]
    rw [show (S4.order.length : Int) = (w.order.length : Int) + 1 from by exact_mod_cast hS4len]
    omega
  refine ⟨?_, ?_, ?_, hfinraw, ?_⟩
  · rw [setActive_order]
    exact hS4order
  · rw [setActive_order]
    exact hS4len
  · rw [setActive_undoStack]
    exact hS4undo
  · -- the two entities
    have htk : (w.order.take a).length = a := by simp; omega
    have hgetA : (setActive S4 (activeIdx S4 + 1)).order.get? a = some id0 := by
      rw [setActive_order, hS4order, List.get?_append_right (by omega)]
      simp [htk]
    have hgetA1 : (setActive S4 (activeIdx S4 + 1)).order.get? (a + 1) = some id1 := by
      rw [setActive_order, hS4order, List.get?_append_right (by omega)]
      have : a + 1 - (w.order.take a).length = 1 := by omega
      rw [this]
      rfl
    have hmapA : mapLookup (setActive S4 (activeIdx S4 + 1)).map id0 = some (some C0) := by
      rw [setActive_map, hS4map, mapLookup_mapSet_other _ _ _ _ (Ne.symm hne), mapLookup_mapSet_self]
    have hmapA1 : mapLookup (setActive S4 (activeIdx S4 + 1)).map id1 = some (some C1) := by
      rw [setActive_map, hS4map, mapLookup_mapSet_self]
    refine ⟨C0, C1, ?_, ?_, rfl, rfl, hC0aty, hF1ty, hC0atr, hF1tr, hC0amd, hF1md, hC0aout, hF1out⟩
    · simp only [taskListGet, hgetA, hmapA]
    · simp only [taskListGet, hgetA1, hmapA1]

/-- The three-task Scenario A document. -/
def splitDoc : WState :=
  mkDoc [mkTask "t0" .dataintegration "a=1", mkTask "t1" .dataintegration "b=2",
    mkTask "t2" .dataintegration "c=3"] 1 []

/-- Witness for C4: Scenario A — split task 1 (`"b=2"`) at offset 2. -/
theorem splitTask_spec_witness :
    (splitTaskAction splitDoc 2 "n0" "n1").order
      = splitDoc.order.take 1 ++ "n0" :: "n1" :: splitDoc.order.drop 2 ∧
    (splitTaskAction splitDoc 2 "n0" "n1").raw = (1 : Int) + 1 := by
  have h := splitTask_spec splitDoc 2 "n0" "n1" 1 "t1" (mkTask "t1" .dataintegration "b=2")
    rfl rfl rfl (by decide) rfl rfl rfl (by decide)
  exact ⟨h.1, h.2.2.2.1⟩

/-! ## Claim C10: active-index stability under structural edits -/

/-- **C10 (amended).**  With a model attached and the stored active index `a`
in bounds: a task insertion at `i` increments the active index exactly when
`i ≤ a` (keeping the same task active on both sides of the comparison); a
removal at `i` assigns `a - 1` through the clamping setter exactly when
`i ≤ a` (`-1` when the list empties; the same task stays active for `i ≠ a`);
and moving the task at the active index makes the destination index active,
still denoting the moved task.  (A move of a *different* task across the
active position leaves the stored index alone and therefore changes which
task is active — see the counterexample.) -/
theorem activeIndex_structural_edits (w : WState) (a : Nat) (id : String)
    (hm : w.modelPresent = true) (hraw : w.raw = (a : Int)) (ha : a < w.order.length) :
    (∀ i, i ≤ w.order.length →
      ((applyEvent w (.dadd i [id])).raw = if i ≤ a then (a : Int) + 1 else (a : Int)) ∧
      (i ≤ a → (applyEvent w (.dadd i [id])).order.get? (a + 1) = w.order.get? a) ∧
      (a < i → (applyEvent w (.dadd i [id])).order.get? a = w.order.get? a)) ∧
    (∀ i, i < w.order.length →
      ((applyEvent w (.drem i [id])).raw =
        if i ≤ a then (if w.order.length = 1 then -1 else max 0 ((a : Int) - 1))
        else (a : Int)) ∧
      (i < a → (applyEvent w (.drem i [id])).order.get? (a - 1) = w.order.get? a) ∧
      (a < i → (applyEvent w (.drem i [id])).order.get? a = w.order.get? a)) ∧
    (∀ t, t < w.order.length →
      ((applyEvent w (.dmove a t)).raw = (t : Int)) ∧
      ((applyEvent w (.dmove a t)).order.get? t = w.order.get? a)) := by
  have hL0 : w.order.length ≠ 0 := by omega
  refine ⟨fun i hi => ?_, fun i hi => ?_, fun t ht => ?_⟩
  · -- insertion
    have hL1 : (insertRun w.order i [id]).length = w.order.length + 1 := by
      simpa using insertRun_length w.order i [id]
    refine ⟨?_, fun hia => ?_, fun hia => ?_⟩
    · set w2 : WState := { w with order := insertRun w.order i [id], map := onOrderEvent w.db w.map (.dadd i [id]) } with hw2
      have hm2 : w2.modelPresent = true := hm
      have hlen2 : w2.order.length ≠ 0 := by
        show (insertRun w.order i [id]).length ≠ 0
        rw [hL1]
        omega
      have hraw2 : w2.raw = (a : Int) := hraw
      have hred : applyEvent w (.dadd i [id]) = wOnTaskInserted w2 i := by
        unfold applyEvent handleWidgetEvent
        rw [if_pos hm2]
        rfl
      have hup : (wOnTaskInserted w2 i).raw = resolveActive w2 (if (i : Int) ≤ (a : Int) then (a : Int) + 1 else (a : Int)) := by
        rw [wOnTaskInserted, activeIdx_pos w2 hm2 hlen2, hraw2]
        rfl
      rw [hred, hup, resolveActive_pos w2 hm2 hlen2]
      have hcast : (w2.order.length : Int) = (w.order.length : Int) + 1 := by
        exact_mod_cast hL1
      rw [hcast]
      by_cases hia : i ≤ a
      · rw [if_pos (by exact_mod_cast hia), if_pos hia]
        omega
      · rw [if_neg (by exact_mod_cast hia), if_neg hia]
        omega
    · rw [applyEvent_order]
      have h := insertRun_get_ge w.order i [id] a hia (le_trans hia (le_of_lt ha))
      simpa [applyDeltaOrder] using h
    · rw [applyEvent_order]
      exact insertRun_get_lt w.order i [id] a hia hi
  · -- removal
    have hL1 : (w.order.take i ++ w.order.drop (i + 1)).length = w.order.length - 1 := by
      have := eraseRun_length w.order i 1 (by omega)
      simpa using this
    refine ⟨?_, fun hia => ?_, fun hia => ?_⟩
    · set w2 : WState := { w with order := w.order.take i ++ w.order.drop (i + 1), map := onOrderEvent w.db w.map (.drem i [id]) } with hw2
      have hm2 : w2.modelPresent = true := hm
      have hraw2 : w2.raw = (a : Int) := hraw
      have hlen2 : w2.order.length = w.order.length - 1 := hL1
      have hred : applyEvent w (.drem i [id]) = deselectId (wOnTaskRemoved w2 i) id := by
        unfold applyEvent handleWidgetEvent
        rw [if_pos hm2]
        rfl
      have hrawsel : (deselectId (wOnTaskRemoved w2 i) id).raw = (wOnTaskRemoved w2 i).raw := rfl
      rw [hred, hrawsel, wOnTaskRemoved]
      by_cases hone : w.order.length = 1
      · have hempty : w2.order.length = 0 := by omega
        show resolveActive w2 _ = _
        rw [resolveActive, if_neg (by rw [hempty]; simp)]
        rw [if_pos (by omega), if_pos hone]
      · rw [activeIdx_pos w2 hm2 (by omega), hraw2]
        show resolveActive w2 _ = _
        rw [resolveActive_pos w2 hm2 (by omega)]
        have hcast : (w2.order.length : Int) = (w.order.length : Int) - 1 := by
          rw [hlen2]
          omega
        rw [hcast]
        by_cases hia : i ≤ a
        · rw [if_pos (by exact_mod_cast hia), if_pos hia, if_neg hone]
          omega
        · rw [if_neg (by exact_mod_cast hia), if_neg hia]
          omega
    · rw [applyEvent_order]
      have h := eraseRun_get_ge w.order i 1 (a - 1) (by omega) (by omega)
      simp only [applyDeltaOrder, List.length_singleton]
      rw [h]
      congr 1
      omega
    · rw [applyEvent_order]
      exact eraseRun_get_lt w.order i 1 a hia (by omega)
  · -- move of the active task
    obtain ⟨x, hx⟩ : ∃ x, w.order.get? a = some x := by
      cases hx : w.order.get? a with
      | none => exact absurd (List.get?_eq_none.mp hx) (by omega)
      | some x => exact ⟨x, rfl⟩
    have hmov : applyDeltaOrder w.order (.dmove a t) = insertRun (w.order.eraseIdx a) t [x] := by
      show moveItem w.order a t = _
      unfold moveItem
      rw [hx]
      show (if t < w.order.length then insertRun (w.order.eraseIdx a) t [x] else w.order) = _
      rw [if_pos ht]
    have hLe : (w.order.eraseIdx a).length = w.order.length - 1 := by
      rw [List.length_eraseIdx]
      simp [ha]
    have hLmov : (applyDeltaOrder w.order (.dmove a t)).length = w.order.length := by
      rw [hmov, insertRun_length, hLe]
      simp only [List.length_singleton]
      omega
    constructor
    · set w2 : WState := { w with order := applyDeltaOrder w.order (.dmove a t), map := onOrderEvent w.db w.map (.dmove a t) } with hw2
      have hm2 : w2.modelPresent = true := hm
      have hraw2 : w2.raw = (a : Int) := hraw
      have hlen2 : w2.order.length = w.order.length := hLmov
      have hred : applyEvent w (.dmove a t) = wOnTaskMoved w2 a t := by
        unfold applyEvent handleWidgetEvent
        rw [if_pos hm2]
      rw [hred, wOnTaskMoved]
      rw [if_pos (by rw [activeIdx_pos w2 hm2 (by omega), hraw2])]
      show resolveActive w2 _ = _
      rw [resolveActive_pos w2 hm2 (by omega)]
      have hcast : (w2.order.length : Int) = (w.order.length : Int) := by
        exact_mod_cast hlen2
      rw [hcast]
      omega
    · rw [applyEvent_order, hmov, insertRun_get_self _ _ _ (by omega), hx]

/-- The three-task document (active index 1) used for the C10 move
counterexample and witness. -/
def moveDoc : WState :=
  mkDoc [mkTask "x" .dataintegration "1", mkTask "y" .dataintegration "2",
    mkTask "z" .dataintegration "3"] 1 []

/-- **C10 counterexample.**  Moving the task at index 2 to index 0 — a move
at positions other than the active index 1 — leaves the stored active index
at 1, but the id at position 1 changes from `"y"` to `"x"`: the same task
does *not* stay active, contradicting the claim's summary that the three
rules keep the same task active across moves at other positions. -/
theorem moveCrossingActive_changesActiveTask :
    ((2 : Nat) : Int) ≠ moveDoc.raw ∧
    (applyEvent moveDoc (.dmove 2 0)).raw = moveDoc.raw ∧
    moveDoc.order.get? 1 = some "y" ∧
    (applyEvent moveDoc (.dmove 2 0)).order.get? 1 = some "x" := by
  refine ⟨by decide, rfl, rfl, rfl⟩

/-- Witness for C10 at the concrete three-task document: an insertion at
index 0 (at or below the active index 1) bumps the stored index to 2. -/
theorem activeIndex_structural_edits_witness :
    moveDoc.modelPresent = true ∧ moveDoc.raw = ((1 : Nat) : Int) ∧ 1 < moveDoc.order.length ∧
    (applyEvent moveDoc (.dadd 0 ["w"])).raw = 2 := by
  refine ⟨rfl, rfl, by decide, ?_⟩
  have h := ((activeIndex_structural_edits moveDoc 1 "w" rfl rfl (by decide)).1 0 (by decide)).1
  simpa using h

/-! ## Claim C8: run outcome semantics -/

theorem allResultsTrue_iff (bs : List Bool) :
    allResultsTrue bs = true ↔ ∀ b ∈ bs, b = true := by
  induction bs with
  | nil => simp [allResultsTrue]
  | cons b rest ih =>
      cases b with
      | false => simp [allResultsTrue]
      | true => simpa [allResultsTrue] using ih

/-- **C8.**  The joined outcome of `runSelected` over the settled per-task
results: (i) with a live widget the overall flag is `true` exactly when every
individual submission settled successfully; (ii) the per-task results are the
independent image of each task's own outcome (a sibling's failure does not
alter them); (iii) a Dataintegration task run without a session clears its
execution count to `null` and counts as success; (iv) with a session, a
Dataintegration task's submission succeeds exactly when the reply status is
`'ok'` — so one non-`'ok'` status makes the overall flag `false` while every
sibling entry of the result list is unchanged. -/
theorem runSelected_outcome (hasSession : Bool) (pairs : List (TaskModel × ExecOutcome)) :
    ((runSelectedModel hasSession pairs false).2 = true ↔
      ∀ p ∈ pairs, (runTask hasSession p.1 p.2).2 = true) ∧
    ((runSelectedModel hasSession pairs false).1
      = pairs.map (fun p => runTask hasSession p.1 p.2)) ∧
    (∀ p ∈ pairs, p.1.ttype = TaskType.dataintegration → hasSession = false →
      (runTask hasSession p.1 p.2).1.executionCount = none ∧
      (runTask hasSession p.1 p.2).2 = true) ∧
    (∀ p ∈ pairs, p.1.ttype = TaskType.dataintegration → hasSession = true →
      ∀ s, p.2 = ExecOutcome.replyStatus s →
        ((runTask hasSession p.1 p.2).2 = true ↔ s = "ok")) ∧
    (runSelectedModel hasSession pairs true).2 = false := by
  refine ⟨?_, rfl, ?_, ?_, rfl⟩
  · rw [show (runSelectedModel hasSession pairs false).2
        = allResultsTrue ((pairs.map (fun p => runTask hasSession p.1 p.2)).map (fun r => r.2))
        from rfl,
      allResultsTrue_iff]
    constructor
    · intro h p hp
      exact h _ (List.mem_map_of_mem _ (List.mem_map_of_mem _ hp))
    · intro h b hb
      obtain ⟨r, hr, rfl⟩ := List.mem_map.mp hb
      obtain ⟨p, hp, rfl⟩ := List.mem_map.mp hr
      exact h p hp
  · intro p _ hty hs
    subst hs
    rw [runTask.eq_def, hty]
    exact ⟨rfl, rfl⟩
  · intro p _ hty hs s hreply
    subst hs
    rw [runTask.eq_def, hty, hreply]
    simp

/-- Witness for C8: running a Dataintegration task without a session clears
its execution count and counts as success. -/
theorem runSelected_outcome_witness :
    (runTask false { mkTask "t" .dataintegration "x" with executionCount := some 3 }
      (.replyStatus "ok")).1.executionCount = none ∧
    (runTask false { mkTask "t" .dataintegration "x" with executionCount := some 3 }
      (.replyStatus "ok")).2 = true :=
  (runSelected_outcome false
    [({ mkTask "t" .dataintegration "x" with executionCount := some 3 }, .replyStatus "ok")]).2.2.1
    _ (List.Mem.head _) rfl rfl

/-! ## Claim C9: undo/redo frame conditions -/

/-- Equality of everything except the surface fields `raw`, `mode` and
`selected`: the order, entity map, backing store and undo machinery. -/
def coreEq (u v : WState) : Prop :=
  u.order = v.order ∧ u.map = v.map ∧ u.db = v.db ∧ u.undoStack = v.undoStack ∧
  u.redoStack = v.redoStack ∧ u.depth = v.depth ∧ u.pending = v.pending ∧
  u.pendingUndoable = v.pendingUndoable ∧ u.modelPresent = v.modelPresent

theorem coreEq_refl (u : WState) : coreEq u u :=
  ⟨rfl, rfl, rfl, rfl, rfl, rfl, rfl, rfl, rfl⟩

theorem coreEq_applyEvent {u v : WState} (h : coreEq u v) (e : Delta) :
    coreEq (applyEvent u e) (applyEvent v e) := by
  obtain ⟨h1, h2, h3, h4, h5, h6, h7, h8, h9⟩ := h
  refine ⟨?_, ?_, ?_, ?_, ?_, ?_, ?_, ?_, ?_⟩
  · rw [applyEvent_order, applyEvent_order, h1]
  · rw [applyEvent_map, applyEvent_map, h2, h3]
  · rw [applyEvent_db, applyEvent_db, h3]
  · rw [applyEvent_undoStack, applyEvent_undoStack, h4]
  · rw [applyEvent_redoStack, applyEvent_redoStack, h5]
  · rw [applyEvent_depth, applyEvent_depth, h6]
  · rw [applyEvent_pending, applyEvent_pending, h7]
  · rw [applyEvent_pendingUndoable, applyEvent_pendingUndoable, h8]
  · rw [applyEvent_modelPresent, applyEvent_modelPresent, h9]

theorem coreEq_applyEvents {u v : WState} (h : coreEq u v) (es : List Delta) :
    coreEq (applyEvents u es) (applyEvents v es) := by
  induction es generalizing u v with
  | nil => exact h
  | cons e rest ih => exact ih (coreEq_applyEvent h e)

theorem coreEq_update {u v : WState} (h : coreEq u v)
    (us rs : List (List Delta)) :
    coreEq { u with undoStack := us, redoStack := rs }
      { v with undoStack := us, redoStack := rs } := by
  obtain ⟨h1, h2, h3, _, _, h6, h7, h8, h9⟩ := h
  exact ⟨h1, h2, h3, rfl, rfl, h6, h7, h8, h9⟩

theorem coreEq_wUndo {u v : WState} (h : coreEq u v) : coreEq (wUndo u) (wUndo v) := by
  obtain ⟨h1, h2, h3, h4, h5, h6, h7, h8, h9⟩ := h
  unfold wUndo
  have hg : u.undoStack.getLast? = v.undoStack.getLast? := by rw [h4]
  rw [hg]
  cases v.undoStack.getLast? with
  | none => exact ⟨h1, h2, h3, h4, h5, h6, h7, h8, h9⟩
  | some g =>
      refine coreEq_applyEvents ?_ _
      exact ⟨h1, h2, h3, congrArg List.dropLast h4, by rw [h5], h6, h7, h8, h9⟩

theorem coreEq_wRedo {u v : WState} (h : coreEq u v) : coreEq (wRedo u) (wRedo v) := by
  obtain ⟨h1, h2, h3, h4, h5, h6, h7, h8, h9⟩ := h
  unfold wRedo
  have hg : u.redoStack.getLast? = v.redoStack.getLast? := by rw [h5]
  rw [hg]
  cases v.redoStack.getLast? with
  | none => exact ⟨h1, h2, h3, h4, h5, h6, h7, h8, h9⟩
  | some g =>
      refine coreEq_applyEvents ?_ _
      exact ⟨h1, h2, h3, by rw [h4], congrArg List.dropLast h5, h6, h7, h8, h9⟩

theorem setMode_coreEq (w : WState) (m : Mode) : coreEq (setMode w m) w := by
  simp only [setMode]
  repeat' split
  all_goals first
    | exact coreEq_refl w
    | exact ⟨rfl, rfl, rfl, rfl, rfl, rfl, rfl, rfl, rfl⟩

theorem deselectAll_coreEq (w : WState) : coreEq (deselectAll w) w :=
  coreEq_refl _

theorem applyEvents_mode (u : WState) (es : List Delta) :
    (applyEvents u es).mode = u.mode := by
  induction es generalizing u with
  | nil => rfl
  | cons e rest ih =>
      show (applyEvents (applyEvent u e) rest).mode = u.mode
      rw [ih, applyEvent_mode]

theorem wUndo_mode (u : WState) : (wUndo u).mode = u.mode := by
  rw [wUndo]
  cases u.undoStack.getLast? with
  | none => rfl
  | some g => exact applyEvents_mode _ _

theorem wRedo_mode (u : WState) : (wRedo u).mode = u.mode := by
  rw [wRedo]
  cases u.redoStack.getLast? with
  | none => rfl
  | some g => exact applyEvents_mode _ _

theorem setMode_command_mode (w : WState) : (setMode w .command).mode = .command := by
  simp only [setMode, ite_self]
  repeat' split
  all_goals simp_all

/-- **C9.**  The undo and redo actions delegate to the task list's
`undo()`/`redo()` — the resulting order, entity map, backing store and undo
machinery are exactly those of `wUndo`/`wRedo` applied to the incoming state —
while forcing the surface mode to `'command'` and clearing the whole selected
set; and they are silent no-ops when there is no model or no active task. -/
theorem undoRedo_frame (w : WState) :
    (canAct w = true →
      (undoAction w).mode = Mode.command ∧ (undoAction w).selected = [] ∧
      coreEq (undoAction w) (wUndo w) ∧
      (redoAction w).mode = Mode.command ∧ (redoAction w).selected = [] ∧
      coreEq (redoAction w) (wRedo w)) ∧
    (canAct w = false → undoAction w = w ∧ redoAction w = w) := by
  constructor
  · intro hc
    rw [undoAction, if_pos hc, redoAction, if_pos hc]
    refine ⟨?_, rfl, ?_, ?_, rfl, ?_⟩
    · show (wUndo (setMode w .command)).mode = _
      rw [wUndo_mode, setMode_command_mode]
    · exact coreEq_wUndo (setMode_coreEq w .command)
    · show (wRedo (setMode w .command)).mode = _
      rw [wRedo_mode, setMode_command_mode]
    · exact coreEq_wRedo (setMode_coreEq w .command)
  · intro hc
    rw [undoAction, if_neg (by simp [hc]), redoAction, if_neg (by simp [hc])]
    exact ⟨rfl, rfl⟩

/-- Witness for C9 at a concrete two-task document in edit mode with a
selection: undo clears the selection, sets command mode, and pops the one
recorded step. -/
theorem undoRedo_frame_witness :
    canAct { mkDoc [mkTask "a" .dataintegration "x", mkTask "b" .dataintegration "y"] 0 ["b"]
      with mode := .edit, undoStack := [[.dadd 1 ["b"]]] } = true ∧
    (undoAction { mkDoc [mkTask "a" .dataintegration "x", mkTask "b" .dataintegration "y"] 0 ["b"]
      with mode := .edit, undoStack := [[.dadd 1 ["b"]]] }).mode = Mode.command ∧
    (undoAction { mkDoc [mkTask "a" .dataintegration "x", mkTask "b" .dataintegration "y"] 0 ["b"]
      with mode := .edit, undoStack := [[.dadd 1 ["b"]]] }).selected = [] := by
  have h := (undoRedo_frame { mkDoc [mkTask "a" .dataintegration "x",
    mkTask "b" .dataintegration "y"] 0 ["b"]
    with mode := .edit, undoStack := [[.dadd 1 ["b"]]] }).1 rfl
  exact ⟨rfl, h.1, h.2.1⟩

/-! ## Claim C3: deleteTasks -/

/-- The index-wise complement used to describe batch deletion: drop from `l`
every element whose absolute position (the scan starting at position `i`)
belongs to `ds`. -/
def keepAux (l : List α) (ds : List Nat) (i : Nat) : List α :=
  match l with
  | [] => []
  | x :: xs => if i ∈ ds then keepAux xs ds (i + 1) else x :: keepAux xs ds (i + 1)

theorem keepAux_cons_eq (x : α) (xs : List α) (ds : List Nat) (i : Nat) :
    keepAux (x :: xs) ds i =
      if i ∈ ds then keepAux xs ds (i + 1) else x :: keepAux xs ds (i + 1) := rfl

theorem keepAux_high (l : List α) : ∀ (ds : List Nat) (i : Nat),
    (∀ j ∈ ds, j < i) → keepAux l ds i = l := by
  induction l with
  | nil => intro ds i _; rfl
  | cons x xs ih =>
      intro ds i h
      rw [keepAux_cons_eq, if_neg (fun hc => absurd (h i hc) (lt_irrefl i))]
      rw [ih ds (i + 1) (fun j hj => Nat.lt_succ_of_lt (h j hj))]

theorem keepAux_mem_congr (l : List α) : ∀ (ds1 ds2 : List Nat) (i : Nat),
    (∀ j, j ∈ ds1 ↔ j ∈ ds2) → keepAux l ds1 i = keepAux l ds2 i := by
  induction l with
  | nil => intro ds1 ds2 i _; rfl
  | cons x xs ih =>
      intro ds1 ds2 i h
      rw [keepAux_cons_eq, keepAux_cons_eq]
      by_cases hi : i ∈ ds1
      · rw [if_pos hi, if_pos ((h i).mp hi), ih ds1 ds2 (i + 1) h]
      · rw [if_neg hi, if_neg (fun hc => hi ((h i).mpr hc)), ih ds1 ds2 (i + 1) h]

theorem eraseIdx_take_drop (l : List α) : ∀ (m : Nat),
    l.eraseIdx m = l.take m ++ l.drop (m + 1) := by
  induction l with
  | nil => intro m; simp
  | cons x xs ih =>
      intro m
      cases m with
      | zero => rfl
      | succ k =>
          show x :: xs.eraseIdx k = x :: (xs.take k ++ xs.drop (k + 1))
          rw [ih k]

theorem eraseIdx_length_lt (l : List α) : ∀ (m : Nat), m < l.length →
    (l.eraseIdx m).length = l.length - 1 := by
  induction l with
  | nil => intro m hm; exact absurd hm (by simp)
  | cons x xs ih =>
      intro m hm
      cases m with
      | zero => simp [List.eraseIdx]
      | succ k =>
          have hk : k < xs.length := by
            simp only [List.length_cons] at hm
            omega
          show (x :: xs.eraseIdx k).length = (x :: xs).length - 1
          simp only [List.length_cons, ih k hk]
          omega

theorem keepAux_single (l : List α) : ∀ (m i : Nat), i ≤ m →
    keepAux l [m] i = l.eraseIdx (m - i) := by
  induction l with
  | nil => intro m i _; rfl
  | cons x xs ih =>
      intro m i him
      rw [keepAux_cons_eq]
      by_cases hmi : i = m
      · subst hmi
        rw [if_pos (List.mem_singleton.mpr rfl)]
        have hh : ∀ j ∈ ([i] : List Nat), j < i + 1 := by
          intro j hj
          rw [List.mem_singleton] at hj
          omega
        rw [keepAux_high xs [i] (i + 1) hh, Nat.sub_self]
        rfl
      · have hne : i ∉ ([m] : List Nat) := by
          rw [List.mem_singleton]
          exact hmi
        rw [if_neg hne, ih m (i + 1) (by omega)]
        have hsub : m - i = (m - (i + 1)) + 1 := by omega
        rw [hsub]
        rfl

theorem keepAux_compose (l : List α) : ∀ (ds : List Nat) (m i : Nat), (∀ j ∈ ds, j < m) →
    keepAux (keepAux l [m] i) ds i = keepAux l (m :: ds) i := by
  induction l with
  | nil => intro ds m i _; rfl
  | cons x xs ih =>
      intro ds m i hlt
      by_cases him : i = m
      · subst him
        have h1 : keepAux (x :: xs) [i] i = xs := by
          rw [keepAux_cons_eq, if_pos (List.mem_singleton.mpr rfl)]
          exact keepAux_high xs [i] (i + 1) (by
            intro j hj
            rw [List.mem_singleton] at hj
            omega)
        have h2 : keepAux (x :: xs) (i :: ds) i = xs := by
          rw [keepAux_cons_eq, if_pos (List.mem_cons_self i ds)]
          exact keepAux_high xs (i :: ds) (i + 1) (by
            intro j hj
            rcases List.mem_cons.mp hj with hj1 | hj2
            · omega
            · exact Nat.lt_succ_of_lt (hlt j hj2))
        rw [h1, h2]
        exact keepAux_high xs ds i hlt
      · have h1 : keepAux (x :: xs) [m] i = x :: keepAux xs [m] (i + 1) := by
          rw [keepAux_cons_eq, if_neg (by rw [List.mem_singleton]; exact him)]
        rw [h1]
        by_cases hid : i ∈ ds
        · rw [keepAux_cons_eq, if_pos hid]
          have h3 : keepAux (x :: xs) (m :: ds) i = keepAux xs (m :: ds) (i + 1) := by
            rw [keepAux_cons_eq, if_pos (List.mem_cons.mpr (Or.inr hid))]
          rw [h3]
          exact ih ds m (i + 1) hlt
        · rw [keepAux_cons_eq, if_neg hid]
          have h3 : keepAux (x :: xs) (m :: ds) i = x :: keepAux xs (m :: ds) (i + 1) := by
            rw [keepAux_cons_eq, if_neg (by
              intro hc
              rcases List.mem_cons.mp hc with hc1 | hc2
              · exact him hc1
              · exact hid hc2)]
          rw [h3, ih ds m (i + 1) hlt]

theorem foldl_eraseIdx_keepAux : ∀ (ds : List Nat) (l : List α),
    List.Pairwise (· > ·) ds → (∀ j ∈ ds, j < l.length) →
    List.foldl (fun l j => l.eraseIdx j) l ds = keepAux l ds 0 := by
  intro ds
  induction ds with
  | nil =>
      intro l _ _
      exact (keepAux_high l [] 0 (fun j hj => absurd hj (List.not_mem_nil j))).symm
  | cons m rest ih =>
      intro l hp hb
      have hm : m < l.length := hb m (List.mem_cons_self m rest)
      have hrlt := (List.pairwise_cons.mp hp).1
      have hbnd : ∀ j ∈ rest, j < (l.eraseIdx m).length := by
        intro j hj
        rw [eraseIdx_length_lt l m hm]
        have := hrlt j hj
        omega
      show List.foldl (fun l j => l.eraseIdx j) (l.eraseIdx m) rest = keepAux l (m :: rest) 0
      rw [ih (l.eraseIdx m) (List.pairwise_cons.mp hp).2 hbnd]
      have hsingle : l.eraseIdx m = keepAux l [m] 0 := by
        rw [keepAux_single l m 0 (Nat.zero_le m), Nat.sub_zero]
      rw [hsingle]
      exact keepAux_compose l rest m 0 hrlt

/-- Folding `TaskList.remove` over a strictly descending list of valid
indices: the order undergoes the corresponding `eraseIdx` fold, every other
core component is untouched (removal is a soft delete: the entity map keeps
the entities), and inside a compound operation exactly one pending delta is
recorded per removed index. -/
theorem removeFold_spec (ds : List Nat) : ∀ (w : WState), w.depth ≠ 0 →
    List.Pairwise (· > ·) ds → (∀ j ∈ ds, j < w.order.length) →
    (List.foldl wRemove w ds).order = List.foldl (fun l j => l.eraseIdx j) w.order ds ∧
    (List.foldl wRemove w ds).map = w.map ∧
    (List.foldl wRemove w ds).db = w.db ∧
    (List.foldl wRemove w ds).undoStack = w.undoStack ∧
    (List.foldl wRemove w ds).depth = w.depth ∧
    (List.foldl wRemove w ds).modelPresent = w.modelPresent ∧
    (List.foldl wRemove w ds).pendingUndoable = w.pendingUndoable ∧
    (List.foldl wRemove w ds).mode = w.mode ∧
    ∃ extra : List Delta, (List.foldl wRemove w ds).pending = w.pending ++ extra ∧
      extra.length = ds.length := by
  induction ds with
  | nil =>
      intro w _ _ _
      exact ⟨rfl, rfl, rfl, rfl, rfl, rfl, rfl, rfl, [],
        (List.append_nil w.pending).symm, rfl⟩
  | cons m rest ih =>
      intro w hd hp hb
      have hm : m < w.order.length := hb m (List.mem_cons_self m rest)
      obtain ⟨oid, hoid⟩ : ∃ oid, w.order.get? m = some oid := by
        cases hg : w.order.get? m with
        | none =>
            exfalso
            have := List.get?_eq_none.mp hg
            omega
        | some v => exact ⟨v, rfl⟩
      have h1order : (wRemove w m).order = w.order.eraseIdx m := by
        rw [wRemove_order w m oid hoid, eraseIdx_take_drop]
      have h1len : (wRemove w m).order.length = w.order.length - 1 := by
        rw [h1order]
        exact eraseIdx_length_lt w.order m hm
      have h1depth : (wRemove w m).depth = w.depth := wRemove_depth w m oid hoid
      have hdep1 : (wRemove w m).depth ≠ 0 := by
        rw [h1depth]
        exact hd
      have hlt := (List.pairwise_cons.mp hp).1
      have hb2 : ∀ j ∈ rest, j < (wRemove w m).order.length := by
        intro j hj
        have h1 : j < m := hlt j hj
        rw [h1len]
        omega
      obtain ⟨ho, hmap2, hdb2, hun2, hdep2, hmp2, hpu2, hmode2, extra1, hpend1, hlen1⟩ :=
        ih (wRemove w m) hdep1 (List.pairwise_cons.mp hp).2 hb2
      have hcomp := wRemove_compound w m oid hoid hd
      refine ⟨?_, ?_, ?_, ?_, ?_, ?_, ?_, ?_, Delta.drem m [oid] :: extra1, ?_, ?_⟩
      · refine ho.trans ?_
        rw [h1order]
        rfl
      · exact hmap2.trans (wRemove_map w m oid hoid)
      · exact hdb2.trans (wRemove_db w m oid hoid)
      · exact hun2.trans hcomp.2.1
      · exact hdep2.trans h1depth
      · exact hmp2.trans (wRemove_modelPresent w m oid hoid)
      · exact hpu2.trans (wRemove_pendingUndoable w m oid hoid)
      · exact hmode2.trans (wRemove_mode w m oid hoid)
      · show (List.foldl wRemove (wRemove w m) rest).pending = _
        calc (List.foldl wRemove (wRemove w m) rest).pending
            = (wRemove w m).pending ++ extra1 := hpend1
          _ = (w.pending ++ [Delta.drem m [oid]]) ++ extra1 := by rw [hcomp.1]
          _ = w.pending ++ (Delta.drem m [oid] :: extra1) := by simp
      · simp only [List.length_cons, hlen1]

/-- The `mode` setter never touches the stored active index. -/
theorem setMode_raw (w : WState) (m : Mode) : (setMode w m).raw = w.raw := by
  simp only [setMode]
  repeat' split
  all_goals rfl

/-- Setting command mode never clears the selection (only a change to edit
mode does). -/
theorem setMode_command_selected (w : WState) : (setMode w .command).selected = w.selected := by
  simp only [setMode, ite_self]
  repeat' split
  all_goals simp_all

theorem isSelectedIdx_congr (u v : WState) (ho : u.order = v.order) (hr : u.raw = v.raw)
    (hmp : u.modelPresent = v.modelPresent) (hs : u.selected = v.selected) (i : Nat) :
    isSelectedIdx u i = isSelectedIdx v i := by
  unfold isSelectedIdx activeIdx
  rw [ho, hr, hmp, hs]

theorem taskListGet_congr (u v : WState) (ho : u.order = v.order) (hmap : u.map = v.map)
    (i : Nat) : taskListGet u i = taskListGet v i := by
  unfold taskListGet
  rw [ho, hmap]

theorem filter_ext (p q : α → Bool) : ∀ (l : List α), (∀ a ∈ l, p a = q a) →
    l.filter p = l.filter q := by
  intro l
  induction l with
  | nil => intro _; rfl
  | cons x xs ih =>
      intro h
      rw [List.filter_cons, List.filter_cons, h x (List.mem_cons_self x xs),
        ih (fun a ha => h a (List.mem_cons_of_mem x ha))]

/-- The collected deletable-index list only depends on the order, entity map,
stored active index, model presence and selection. -/
theorem collectDeletable_congr (u v : WState) (ho : u.order = v.order) (hmap : u.map = v.map)
    (hr : u.raw = v.raw) (hmp : u.modelPresent = v.modelPresent) (hs : u.selected = v.selected) :
    collectDeletable u = collectDeletable v := by
  unfold collectDeletable
  rw [ho]
  refine filter_ext _ _ _ ?_
  intro i _
  rw [isSelectedIdx_congr u v ho hr hmp hs i, taskListGet_congr u v ho hmap i]

/-- The collected indices are strictly ascending (a filter of `range`). -/
theorem collectDeletable_sorted (w : WState) :
    List.Pairwise (· < ·) (collectDeletable w) :=
  List.Pairwise.filter _ (List.pairwise_lt_range w.order.length)

/-- The reversed collected indices, as iterated by the removal loop, are
strictly descending. -/
theorem collectDeletable_rev_sorted (w : WState) :
    List.Pairwise (· > ·) ((collectDeletable w).reverse) :=
  List.pairwise_reverse.mpr (collectDeletable_sorted w)

/-- Every collected index is a valid position. -/
theorem collectDeletable_bound (w : WState) :
    ∀ j ∈ collectDeletable w, j < w.order.length := by
  intro j hj
  exact List.mem_range.mp (List.mem_of_mem_filter hj)

/-- A four-task document with active index 0 and the task at index 2
explicitly selected: `deleteTasks` collects the indices 0 and 2. -/
def deleteDoc : WState :=
  mkDoc [mkTask "t0" TaskType.dataintegration "a", mkTask "t1" TaskType.dataintegration "b",
    mkTask "t2" TaskType.dataintegration "c", mkTask "t3" TaskType.dataintegration "d"]
    0 ["t2"]

/-- Scenario B surface: a single (active, hence selected) deletable task. -/
def deleteDocB : WState :=
  mkDoc [mkTask "t0" TaskType.dataintegration "x"] 0 []

/-- **C3 counterexample.**  On `deleteDoc` the collected indices are `[0, 2]`;
after the action the order is the complement, but the stored active index is
`1` — the clamp of the *largest* deleted index (`toDelete.reverse()[0] = 2`,
clamped to the new bounds) — and not the claim's "index of the first deleted
task, clamped" (`0`, already in bounds). -/
theorem deleteTasks_active_is_last_not_first :
    collectDeletable deleteDoc = [0, 2] ∧
    (deleteTasksAction deleteDoc "n0").order = ["t1", "t3"] ∧
    (deleteTasksAction deleteDoc "n0").raw = 1 ∧
    ¬((deleteTasksAction deleteDoc "n0").raw =
        max 0 (min (0 : Int) (((deleteTasksAction deleteDoc "n0").order.length : Int) - 1))) := by
  exact ⟨by decide, by decide, by decide, by decide⟩

/-- **C3 (amended).**  `deleteTasks` on a document (model attached, not
inside a compound operation) with at least one selected deletable task:
it switches to command mode, removes exactly the collected indices — the
resulting order is the index-wise complement `keepAux` of the collected set —
inside a single compound operation (exactly one non-empty undo group is
pushed); when the removals empty the list one default Dataintegration task is
pushed inside that same group, and the entity at position 0 is that default
task; everything is deselected; and the new active index is the clamp of the
*largest* deleted index (`toDelete.reverse()[0]`), not of the first. -/
theorem deleteTasks_spec (w : WState) (newId : String)
    (hm : w.modelPresent = true) (hdepth : w.depth = 0)
    (hD : collectDeletable w ≠ []) :
    (deleteTasksAction w newId).order =
      (if keepAux w.order (collectDeletable w) 0 = [] then [newId]
       else keepAux w.order (collectDeletable w) 0) ∧
    (∃ g : List Delta, g ≠ [] ∧
      (deleteTasksAction w newId).undoStack = w.undoStack ++ [g]) ∧
    (deleteTasksAction w newId).depth = 0 ∧
    (deleteTasksAction w newId).selected = [] ∧
    (deleteTasksAction w newId).mode = Mode.command ∧
    (deleteTasksAction w newId).raw =
      max 0 (min (((collectDeletable w).reverse.headD 0 : Nat) : Int)
        (((deleteTasksAction w newId).order.length : Int) - 1)) ∧
    (keepAux w.order (collectDeletable w) 0 = [] →
      taskListGet (deleteTasksAction w newId) 0 =
        some (createDataintegrationTask newId none)) := by
  have hlen0 : w.order.length ≠ 0 := by
    intro h0
    apply hD
    unfold collectDeletable
    rw [h0]
    rfl
  have hcan : canAct w = true := by
    simp [canAct, hm, hlen0]
  unfold deleteTasksAction
  rw [if_pos hcan]
  simp only [deleteTasksPrivate]
  obtain ⟨hMorder, hMmap, hMdb, hMundo, hMredo, hMdepth, hMpend, hMpu, hMmp⟩ :=
    setMode_coreEq w Mode.command
  have hMraw : (setMode w Mode.command).raw = w.raw := setMode_raw w Mode.command
  have hMsel : (setMode w Mode.command).selected = w.selected := setMode_command_selected w
  have hMmode : (setMode w Mode.command).mode = Mode.command := setMode_command_mode w
  have hDM : collectDeletable (setMode w Mode.command) = collectDeletable w :=
    collectDeletable_congr _ w hMorder hMmap hMraw hMmp hMsel
  rw [hDM, if_pos hD]
  set M := setMode w Mode.command with hMeq
  set B := wBegin M true with hBeq
  have hBred : B = { M with depth := 1, pending := [], pendingUndoable := true } := by
    rw [hBeq]
    exact wBegin_zero M true (hMdepth.trans hdepth)
  have hBorder : B.order = w.order := by
    rw [hBred]
    exact hMorder
  have hBmap : B.map = w.map := by
    rw [hBred]
    exact hMmap
  have hBundo : B.undoStack = w.undoStack := by
    rw [hBred]
    exact hMundo
  have hBdepth : B.depth = 1 := by rw [hBred]
  have hBpend : B.pending = [] := by rw [hBred]
  have hBpu : B.pendingUndoable = true := by rw [hBred]
  have hBmp : B.modelPresent = true := by
    rw [hBred]
    exact hMmp.trans hm
  have hBmode : B.mode = Mode.command := by
    rw [hBred]
    exact hMmode
  set F := List.foldl wRemove B (collectDeletable w).reverse with hFeq
  have hrevbound : ∀ j ∈ (collectDeletable w).reverse, j < B.order.length := by
    intro j hj
    rw [hBorder]
    exact collectDeletable_bound w j (List.mem_reverse.mp hj)
  obtain ⟨hFo, hFmap, hFdb, hFundo, hFdepth, hFmp, hFpu, hFmode, extra, hFpend, hFelen⟩ :=
    removeFold_spec ((collectDeletable w).reverse) B (by rw [hBdepth]; omega)
      (collectDeletable_rev_sorted w) hrevbound
  rw [← hFeq] at hFo hFmap hFdb hFundo hFdepth hFmp hFpu hFmode hFpend
  have hForder : F.order = keepAux w.order (collectDeletable w) 0 := by
    rw [hFo, hBorder]
    rw [foldl_eraseIdx_keepAux ((collectDeletable w).reverse) w.order
      (collectDeletable_rev_sorted w)
      (fun j hj => collectDeletable_bound w j (List.mem_reverse.mp hj))]
    exact keepAux_mem_congr w.order _ _ 0 (fun j => List.mem_reverse)
  have hFmap2 : F.map = w.map := hFmap.trans hBmap
  have hFundo2 : F.undoStack = w.undoStack := hFundo.trans hBundo
  have hFdepth1 : F.depth = 1 := hFdepth.trans hBdepth
  have hFmp2 : F.modelPresent = true := hFmp.trans hBmp
  have hFpu2 : F.pendingUndoable = true := hFpu.trans hBpu
  have hFmode2 : F.mode = Mode.command := hFmode.trans hBmode
  have hFpend2 : F.pending = extra := by
    rw [hFpend, hBpend]
    rfl
  have hrevne : (collectDeletable w).reverse ≠ [] := by
    intro h
    exact hD (List.reverse_eq_nil_iff.mp h)
  have hextrane : extra ≠ [] := by
    intro h
    rw [h] at hFelen
    exact hrevne (List.eq_nil_of_length_eq_zero hFelen.symm)
  have hV0 : (0 : Int) ≤ (((collectDeletable w).reverse.headD 0 : Nat) : Int) :=
    Int.natCast_nonneg _
  by_cases hk : keepAux w.order (collectDeletable w) 0 = []
  · -- the removals empty the list: a default task is pushed in the same group
    have hFlen0 : F.order.length = 0 := by
      rw [hForder, hk]
      rfl
    rw [if_pos hFlen0]
    set P := wPush F (createDataintegrationTask newId none) with hPeq
    have hFordernil : F.order = [] := by rw [hForder, hk]
    have hPorder : P.order = [newId] := by
      rw [hPeq, wPush]
      rw [wInsert_order F F.order.length (createDataintegrationTask newId none)]
      rw [hFordernil]
      rfl
    have hPmapl : mapLookup P.map newId = some (some (createDataintegrationTask newId none)) := by
      rw [hPeq, wPush, wInsert_map]
      exact mapLookup_mapSet_self F.map newId (some (createDataintegrationTask newId none))
    have hPcomp := wInsert_compound F F.order.length (createDataintegrationTask newId none)
      (by rw [hFdepth1]; omega)
    have hPpend : P.pending =
        F.pending ++ [Delta.dadd (min F.order.length F.order.length)
          [(createDataintegrationTask newId none).id]] := hPcomp.1
    have hPpendne : P.pending ≠ [] := by
      rw [hPpend]
      simp
    have hPundo : P.undoStack = w.undoStack := by
      rw [show P.undoStack = F.undoStack from hPcomp.2.1, hFundo2]
    have hPdepth : P.depth = 1 := by
      rw [hPeq, wPush, wInsert_depth]
      exact hFdepth1
    have hPpu : P.pendingUndoable = true := by
      rw [hPeq, wPush, wInsert_pendingUndoable]
      exact hFpu2
    have hPmp : P.modelPresent = true := by
      rw [hPeq, wPush, wInsert_modelPresent]
      exact hFmp2
    have hPmode : P.mode = Mode.command := by
      rw [hPeq, wPush, wInsert_mode]
      exact hFmode2
    have hW5 : wEnd P = { P with depth := 0, pending := [], undoStack := P.undoStack ++ [P.pending] } :=
      wEnd_one_push P hPdepth hPpu hPpendne
    have hW5order : (wEnd P).order = [newId] := by
      rw [hW5]
      exact hPorder
    have hW5mp : (wEnd P).modelPresent = true := by
      rw [hW5]
      exact hPmp
    have hW5map : (wEnd P).map = P.map := by rw [hW5]
    have horderfin :
        (deselectAll (setActive (wEnd P)
          (((collectDeletable w).reverse.headD 0 : Nat) : Int))).order = [newId] := by
      rw [deselectAll_order, setActive_order]
      exact hW5order
    have hSA : (setActive (wEnd P) (((collectDeletable w).reverse.headD 0 : Nat) : Int)).raw =
        min (max (((collectDeletable w).reverse.headD 0 : Nat) : Int) 0)
          (((wEnd P).order.length : Int) - 1) := by
      show resolveActive (wEnd P) _ = _
      exact resolveActive_pos (wEnd P) hW5mp (by rw [hW5order]; simp) _
    have h0 : (setActive (wEnd P) (((collectDeletable w).reverse.headD 0 : Nat) : Int)).raw =
        (((0 : Nat) : Int)) := by
      rw [hSA, hW5order]
      simp only [List.length_singleton]
      omega
    have hfinraw := deselectAll_raw
      (setActive (wEnd P) (((collectDeletable w).reverse.headD 0 : Nat) : Int)) 0
      (show (wEnd P).modelPresent = true from hW5mp) h0
      (by rw [setActive_order, hW5order]; simp)
    refine ⟨?_, ⟨P.pending, hPpendne, ?_⟩, ?_, deselectAll_selected _, ?_, ?_, ?_⟩
    · rw [if_pos hk]
      exact horderfin
    · rw [deselectAll_undoStack, setActive_undoStack, hW5]
      show P.undoStack ++ [P.pending] = w.undoStack ++ [P.pending]
      rw [hPundo]
    · rw [deselectAll_depth]
      show (wEnd P).depth = 0
      rw [hW5]
    · rw [deselectAll_mode]
      show (wEnd P).mode = Mode.command
      rw [wEnd_mode]
      exact hPmode
    · rw [hfinraw, horderfin]
      simp only [List.length_singleton]
      omega
    · intro _
      have hget : (deselectAll (setActive (wEnd P)
          (((collectDeletable w).reverse.headD 0 : Nat) : Int))).order.get? 0 =
          some newId := by
        rw [horderfin]
        rfl
      have hfinmap : (deselectAll (setActive (wEnd P)
          (((collectDeletable w).reverse.headD 0 : Nat) : Int))).map = P.map := by
        rw [deselectAll_map, setActive_map]
        exact hW5map
      simp only [taskListGet, hget, hfinmap, hPmapl]
  · -- the removals leave a non-empty order: no default task is pushed
    have hklenpos : 0 < (keepAux w.order (collectDeletable w) 0).length :=
      List.length_pos.mpr hk
    have hFlenne : ¬(F.order.length = 0) := by
      rw [hForder]
      omega
    rw [if_neg hFlenne]
    have hFpendne : F.pending ≠ [] := by
      rw [hFpend2]
      exact hextrane
    have hW5 : wEnd F = { F with depth := 0, pending := [], undoStack := F.undoStack ++ [F.pending] } :=
      wEnd_one_push F hFdepth1 hFpu2 hFpendne
    have hW5order : (wEnd F).order = keepAux w.order (collectDeletable w) 0 := by
      rw [hW5]
      exact hForder
    have hW5mp : (wEnd F).modelPresent = true := by
      rw [hW5]
      exact hFmp2
    have horderfin :
        (deselectAll (setActive (wEnd F)
          (((collectDeletable w).reverse.headD 0 : Nat) : Int))).order =
          keepAux w.order (collectDeletable w) 0 := by
      rw [deselectAll_order, setActive_order]
      exact hW5order
    have hSA : (setActive (wEnd F) (((collectDeletable w).reverse.headD 0 : Nat) : Int)).raw =
        min (max (((collectDeletable w).reverse.headD 0 : Nat) : Int) 0)
          (((wEnd F).order.length : Int) - 1) := by
      show resolveActive (wEnd F) _ = _
      exact resolveActive_pos (wEnd F) hW5mp (by rw [hW5order]; omega) _
    have h0 : (setActive (wEnd F) (((collectDeletable w).reverse.headD 0 : Nat) : Int)).raw =
        ((min ((collectDeletable w).reverse.headD 0)
          ((keepAux w.order (collectDeletable w) 0).length - 1) : Nat) : Int) := by
      rw [hSA, hW5order]
      omega
    have hfinraw := deselectAll_raw
      (setActive (wEnd F) (((collectDeletable w).reverse.headD 0 : Nat) : Int))
      (min ((collectDeletable w).reverse.headD 0)
        ((keepAux w.order (collectDeletable w) 0).length - 1))
      (show (wEnd F).modelPresent = true from hW5mp) h0
      (by rw [setActive_order, hW5order]; omega)
    refine ⟨?_, ⟨F.pending, hFpendne, ?_⟩, ?_, deselectAll_selected _, ?_, ?_, ?_⟩
    · rw [if_neg hk]
      exact horderfin
    · rw [deselectAll_undoStack, setActive_undoStack, hW5]
      show F.undoStack ++ [F.pending] = w.undoStack ++ [F.pending]
      rw [hFundo2]
    · rw [deselectAll_depth]
      show (wEnd F).depth = 0
      rw [hW5]
    · rw [deselectAll_mode]
      show (wEnd F).mode = Mode.command
      rw [wEnd_mode]
      exact hFmode2
    · rw [hfinraw, horderfin]
      omega
    · intro hc
      exact absurd hc hk

/-- Scenario B, concretely: deleting the only (active) task of `deleteDocB`
re-seeds one default Dataintegration task inside the same single undo
group. -/
theorem deleteTasks_spec_witness :
    (deleteTasksAction deleteDocB "n0").order =
      (if keepAux deleteDocB.order (collectDeletable deleteDocB) 0 = [] then ["n0"]
       else keepAux deleteDocB.order (collectDeletable deleteDocB) 0) ∧
    (∃ g : List Delta, g ≠ [] ∧
      (deleteTasksAction deleteDocB "n0").undoStack = deleteDocB.undoStack ++ [g]) ∧
    (deleteTasksAction deleteDocB "n0").depth = 0 ∧
    (deleteTasksAction deleteDocB "n0").selected = [] ∧
    (deleteTasksAction deleteDocB "n0").mode = Mode.command ∧
    (deleteTasksAction deleteDocB "n0").raw =
      max 0 (min (((collectDeletable deleteDocB).reverse.headD 0 : Nat) : Int)
        (((deleteTasksAction deleteDocB "n0").order.length : Int) - 1)) ∧
    (keepAux deleteDocB.order (collectDeletable deleteDocB) 0 = [] →
      taskListGet (deleteTasksAction deleteDocB "n0") 0 =
        some (createDataintegrationTask "n0" none)) :=
  deleteTasks_spec deleteDocB "n0" rfl rfl (by decide)

/-! ## Claim C6: changeTaskType -/

/-- Overwriting position `i` removes the replaced (disposed) widget's id from
the explicit selection, via the widget's `set` handler. -/
theorem wSet_selected (w : WState) (i : Nat) (t : TaskModel) (cid : String)
    (hc : w.order.get? i = some cid) (hm : w.modelPresent = true) :
    (wSet w i t).selected = w.selected.erase cid := by
  rw [wSet_eq w i t cid hc, recordDelta_selected]
  rw [applyEvent_dset_red { w with map := mapSet w.map t.id (some t) } i cid t.id hm]
  rfl

/-- Iterations of the `changeTaskType` loop that never cross the active index
leave the state untouched when the explicit selection is empty: no widget in
the scanned range is selected. -/
theorem changeLoop_skip (v : TaskType) (fresh : Nat → String) (a : Nat) :
    ∀ (fuel : Nat) (i : Nat) (u : WState), u.modelPresent = true → u.order.length ≠ 0 →
    u.raw = (a : Int) → u.selected = [] → (∀ j, j < fuel → i + j ≠ a) →
    changeLoop u v fresh i fuel = u := by
  intro fuel
  induction fuel with
  | zero => intro i u _ _ _ _ _; rfl
  | succ rest ih =>
      intro i u hm hlen hraw hsel hav
      have hia : i ≠ a := by
        have := hav 0 (Nat.succ_pos rest)
        omega
      have hne : (a : Int) ≠ (i : Int) := by
        intro hc
        apply hia
        omega
      have hI : isSelectedIdx u i = false := by
        unfold isSelectedIdx
        cases hg : u.order.get? i with
        | none => simp [activeIdx_pos u hm hlen, hraw, hsel, hne, hg]
        | some id => simp [activeIdx_pos u hm hlen, hraw, hsel, hne, hg]
      simp only [changeLoop, hI, Bool.false_eq_true, if_false]
      exact ih (i + 1) u hm hlen hraw hsel (by
        intro j hj
        have := hav (j + 1) (by omega)
        omega)

/-- With an empty explicit selection, the loop does nothing until it reaches
the active index: scanning can start at the active index directly. -/
theorem changeLoop_skip_to (v : TaskType) (fresh : Nat → String) (a : Nat) :
    ∀ (fuel : Nat) (i : Nat) (u : WState), u.modelPresent = true →
    u.order.length ≠ 0 → u.raw = (a : Int) → u.selected = [] → i ≤ a →
    changeLoop u v fresh i fuel = changeLoop u v fresh a (fuel - (a - i)) := by
  intro fuel
  induction fuel with
  | zero =>
      intro i u _ _ _ _ _
      rw [Nat.zero_sub]
      rfl
  | succ rest ih =>
      intro i u hm hlen hraw hsel hia
      by_cases hieq : i = a
      · subst hieq
        rw [Nat.sub_self, Nat.sub_zero]
      · have hilt : i < a := lt_of_le_of_ne hia hieq
        have hne : (a : Int) ≠ (i : Int) := by
          intro hc
          omega
        have hI : isSelectedIdx u i = false := by
          unfold isSelectedIdx
          cases hg : u.order.get? i with
          | none => simp [activeIdx_pos u hm hlen, hraw, hsel, hne, hg]
          | some id => simp [activeIdx_pos u hm hlen, hraw, hsel, hne, hg]
        simp only [changeLoop, hI, Bool.false_eq_true, if_false]
        rw [ih (i + 1) u hm hlen hraw hsel (by omega)]
        rw [show rest - (a - (i + 1)) = rest + 1 - (a - i) from by omega]

/-- A three-task surface where the active task (index 2, Dataintegration) and
the task at index 0 (also Dataintegration, explicitly selected) should both be
converted by `changeTaskType` to Notebookcell. -/
def changeDoc : WState :=
  mkDoc [mkTask "a" TaskType.dataintegration "x", mkTask "b" TaskType.notebookcell "y",
    mkTask "c" TaskType.dataintegration "z"] 2 ["a"]

/-- **C6 counterexample.**  On `changeDoc` the task at index 2 is selected (it
is active) and of a type differing from the target, yet the action leaves it
untouched: the conversion at index 0 re-emits a `set` change whose
insert-then-remove handler pair drags the stored active index from 2 down
to 1 (the insert's +1 is clamped away because 2 is the last index, then the
removal handler subtracts 1), so when the loop reaches index 2 the widget no
longer counts as selected.  The claim's "for every selected task whose type
differs from the target type, a new entity of the target type is set at the
same index" fails at index 2. -/
theorem changeTaskType_skips_selected_active :
    isSelectedIdx changeDoc 2 = true ∧
    (taskListGet changeDoc 2).map (fun t => t.ttype) = some TaskType.dataintegration ∧
    (taskListGet (changeTaskTypeAction changeDoc TaskType.notebookcell
      (fun i => "n" ++ toString i)) 0).map (fun t => t.ttype) = some TaskType.notebookcell ∧
    (taskListGet (changeTaskTypeAction changeDoc TaskType.notebookcell
      (fun i => "n" ++ toString i)) 2).map (fun t => t.ttype) = some TaskType.dataintegration ∧
    (changeTaskTypeAction changeDoc TaskType.notebookcell
      (fun i => "n" ++ toString i)).raw = 1 := by
  exact ⟨by decide, by decide, by decide, by decide, by decide⟩

/-- **C6 (amended).**  `changeTaskType` when only the active task is selected
(empty explicit selection — the setting where the handler-induced
active-index drift exhibited by the counterexample cannot occur): the active
task, of type differing from the target `v`, is serialized and rebuilt as a
fresh entity of type `v` set at the same index inside one compound operation
(exactly the one-`set` undo group is pushed); the new entity keeps the
original's text and metadata, and its trusted flag is forced to `false` when
converting Dataintegration → Notebookcell and kept unchanged otherwise;
every other position is untouched; the active index and mode survive and the
selection is cleared. -/
theorem changeTaskType_spec (w : WState) (v : TaskType) (fresh : Nat → String) (a : Nat)
    (cid : String) (child : TaskModel)
    (hm : w.modelPresent = true) (hdepth : w.depth = 0) (hraw : w.raw = (a : Int))
    (ha : a < w.order.length) (hsel : w.selected = [])
    (hcid : w.order.get? a = some cid)
    (hchild : mapLookup w.map cid = some (some child))
    (hdiff : child.ttype ≠ v)
    (hmd : objLookup child.metadata "trusted" = none)
    (hfa : fresh a ∉ w.order) :
    (changeTaskTypeAction w v fresh).order =
      w.order.take a ++ [fresh a] ++ w.order.drop (a + 1) ∧
    (changeTaskTypeAction w v fresh).undoStack =
      w.undoStack ++ [[Delta.dset a [cid] [fresh a]]] ∧
    (changeTaskTypeAction w v fresh).depth = 0 ∧
    (changeTaskTypeAction w v fresh).selected = [] ∧
    (changeTaskTypeAction w v fresh).raw = (a : Int) ∧
    (∃ t : TaskModel, taskListGet (changeTaskTypeAction w v fresh) a = some t ∧
      t.id = fresh a ∧ t.ttype = v ∧ t.text = child.text ∧ t.metadata = child.metadata ∧
      t.outputs = [] ∧
      t.trusted = (if v = TaskType.notebookcell ∧ child.ttype = TaskType.dataintegration
        then false else child.trusted)) ∧
    (∀ j, j < w.order.length → j ≠ a →
      taskListGet (changeTaskTypeAction w v fresh) j = taskListGet w j) := by
  have hlen0 : w.order.length ≠ 0 := by omega
  have hcan : canAct w = true := by
    simp [canAct, hm, hlen0]
  simp only [changeTaskTypeAction]
  rw [if_pos hcan]
  set B := wBegin w true with hBeq
  have hBred : B = { w with depth := 1, pending := [], pendingUndoable := true } := by
    rw [hBeq]
    exact wBegin_zero w true hdepth
  have hBorder : B.order = w.order := by rw [hBred]
  have hBmap : B.map = w.map := by rw [hBred]
  have hBundo : B.undoStack = w.undoStack := by rw [hBred]
  have hBdepth : B.depth = 1 := by rw [hBred]
  have hBpend : B.pending = [] := by rw [hBred]
  have hBpu : B.pendingUndoable = true := by rw [hBred]
  have hBmp : B.modelPresent = true := by
    rw [hBred]
    exact hm
  have hBraw : B.raw = (a : Int) := by
    rw [hBred]
    exact hraw
  have hBsel : B.selected = [] := by
    rw [hBred]
    exact hsel
  have hBlen : B.order.length = w.order.length := by rw [hBorder]
  rw [hBlen]
  rw [changeLoop_skip_to v fresh a w.order.length 0 B hBmp (by omega) hBraw hBsel
    (Nat.zero_le a)]
  obtain ⟨k, hk⟩ : ∃ k, w.order.length - (a - 0) = k + 1 := ⟨w.order.length - a - 1, by omega⟩
  rw [hk]
  have hcB : B.order.get? a = some cid := by
    rw [hBorder]
    exact hcid
  have hIa : isSelectedIdx B a = true := by
    unfold isSelectedIdx
    rw [activeIdx_pos B hBmp (by omega), hBraw]
    simp
  have htlB : taskListGet B a = some child := by
    simp only [taskListGet, hcB]
    rw [hBmap, hchild]
  simp only [changeLoop, hIa, if_true]
  rw [htlB]
  simp only [if_pos hdiff]
  set NT : TaskModel :=
    (if v = TaskType.notebookcell ∧ child.ttype = TaskType.dataintegration then
      { taskModelCreate v (fresh a) (some (taskToJSON child)) with trusted := false }
     else taskModelCreate v (fresh a) (some (taskToJSON child))) with hNT
  obtain ⟨hid0, hty0, htx0, htr0, hmdta0, hout0, hec0, hdis0⟩ :=
    createFromJSON_fields v (fresh a) child hmd
  have hNTid : NT.id = fresh a := by
    rw [hNT]
    by_cases hvc : v = TaskType.notebookcell ∧ child.ttype = TaskType.dataintegration
    · rw [if_pos hvc]
      exact hid0
    · rw [if_neg hvc]
      exact hid0
  have hNTty : NT.ttype = v := by
    rw [hNT]
    by_cases hvc : v = TaskType.notebookcell ∧ child.ttype = TaskType.dataintegration
    · rw [if_pos hvc]
      exact hty0
    · rw [if_neg hvc]
      exact hty0
  have hNTtext : NT.text = child.text := by
    rw [hNT]
    by_cases hvc : v = TaskType.notebookcell ∧ child.ttype = TaskType.dataintegration
    · rw [if_pos hvc]
      exact htx0
    · rw [if_neg hvc]
      exact htx0
  have hNTmeta : NT.metadata = child.metadata := by
    rw [hNT]
    by_cases hvc : v = TaskType.notebookcell ∧ child.ttype = TaskType.dataintegration
    · rw [if_pos hvc]
      exact hmdta0
    · rw [if_neg hvc]
      exact hmdta0
  have hNTout : NT.outputs = [] := by
    rw [hNT]
    by_cases hvc : v = TaskType.notebookcell ∧ child.ttype = TaskType.dataintegration
    · rw [if_pos hvc]
      exact hout0
    · rw [if_neg hvc]
      exact hout0
  have hNTtr : NT.trusted =
      (if v = TaskType.notebookcell ∧ child.ttype = TaskType.dataintegration
        then false else child.trusted) := by
    rw [hNT]
    by_cases hvc : v = TaskType.notebookcell ∧ child.ttype = TaskType.dataintegration
    · rw [if_pos hvc, if_pos hvc]
    · rw [if_neg hvc, if_neg hvc]
      exact htr0
  set S := wSet B a NT with hSeq
  have hSorder : S.order = w.order.take a ++ [NT.id] ++ w.order.drop (a + 1) := by
    rw [hSeq, wSet_order B a NT cid hcB, hBorder]
  have hSorderD : S.order = applyDeltaOrder w.order (Delta.dset a [cid] [NT.id]) := by
    rw [hSorder]
    rfl
  have hSlen : S.order.length = w.order.length := by
    rw [hSorderD]
    exact setRun_length w.order a cid NT.id ha
  have hSmap : S.map = mapSet w.map NT.id (some NT) := by
    rw [hSeq, wSet_map B a NT cid hcB, hBmap]
  have hSraw : S.raw = (a : Int) := by
    rw [hSeq, wSet_raw B a a NT cid hcB hBmp hBraw (by omega) (by omega)]
    rw [if_neg (by omega)]
  have hSsel : S.selected = [] := by
    rw [hSeq, wSet_selected B a NT cid hcB hBmp, hBsel]
    rfl
  have hSmp : S.modelPresent = true := by
    rw [hSeq, wSet_modelPresent B a NT cid hcB]
    exact hBmp
  have hSdepth : S.depth = 1 := by
    rw [hSeq, wSet_depth B a NT cid hcB]
    exact hBdepth
  have hSpu : S.pendingUndoable = true := by
    rw [hSeq, wSet_pendingUndoable B a NT cid hcB]
    exact hBpu
  have hSmode : S.mode = w.mode := by
    rw [hSeq, wSet_mode B a NT cid hcB, hBred]
  have hScomp := wSet_compound B a NT cid hcB (by rw [hBdepth]; omega)
  have hSpend : S.pending = [Delta.dset a [cid] [NT.id]] := by
    rw [hSeq, hScomp.1, hBpend]
    rfl
  have hSundo : S.undoStack = w.undoStack := by
    rw [hSeq, hScomp.2.1, hBundo]
  rw [changeLoop_skip v fresh a k (a + 1) S hSmp (by omega) hSraw hSsel
    (by intro j hj; omega)]
  have hE : wEnd S = { S with depth := 0, pending := [], undoStack := S.undoStack ++ [S.pending] } :=
    wEnd_one_push S hSdepth hSpu (by rw [hSpend]; simp)
  have hEorder : (wEnd S).order = S.order := by rw [hE]
  have hEmap : (wEnd S).map = S.map := by rw [hE]
  have hEmp : (wEnd S).modelPresent = true := by
    rw [hE]
    exact hSmp
  have hEraw : (wEnd S).raw = (a : Int) := by
    rw [hE]
    exact hSraw
  have hEundo : (wEnd S).undoStack = w.undoStack ++ [[Delta.dset a [cid] [fresh a]]] := by
    rw [hE]
    show S.undoStack ++ [S.pending] = _
    rw [hSundo, hSpend, hNTid]
  have horderfin : (deselectAll (wEnd S)).order =
      w.order.take a ++ [fresh a] ++ w.order.drop (a + 1) := by
    rw [deselectAll_order, hEorder, hSorder, hNTid]
  have hrawfin := deselectAll_raw (wEnd S) a hEmp hEraw
    (by rw [hEorder]; omega)
  have hmapfin : (deselectAll (wEnd S)).map = mapSet w.map (fresh a) (some NT) := by
    rw [deselectAll_map, hEmap, hSmap, hNTid]
  refine ⟨horderfin, ?_, ?_, deselectAll_selected _, hrawfin, ?_, ?_⟩
  · rw [deselectAll_undoStack]
    exact hEundo
  · rw [deselectAll_depth]
    show (wEnd S).depth = 0
    rw [hE]
  · refine ⟨NT, ?_, hNTid, hNTty, hNTtext, hNTmeta, hNTout, hNTtr⟩
    have hget : (deselectAll (wEnd S)).order.get? a = some (fresh a) := by
      rw [deselectAll_order, hEorder, hSorderD, hNTid]
      exact setRun_get_self w.order a cid (fresh a) ha
    have hlook : mapLookup (deselectAll (wEnd S)).map (fresh a) = some (some NT) := by
      rw [hmapfin]
      exact mapLookup_mapSet_self w.map (fresh a) (some NT)
    simp only [taskListGet, hget, hlook]
  · intro j hj hja
    obtain ⟨idj, hidj⟩ : ∃ idj, w.order.get? j = some idj := by
      cases hg : w.order.get? j with
      | none =>
          exfalso
          have := List.get?_eq_none.mp hg
          omega
      | some x => exact ⟨x, rfl⟩
    have hmem : idj ∈ w.order := List.get?_mem hidj
    have hne : idj ≠ fresh a := by
      intro hc
      rw [hc] at hmem
      exact hfa hmem
    have hget : (deselectAll (wEnd S)).order.get? j = some idj := by
      rw [deselectAll_order, hEorder, hSorderD]
      rcases Nat.lt_or_ge j a with hlt | hge
      · rw [setRun_get_lt w.order a j cid NT.id ha hlt]
        exact hidj
      · have hgt : a < j := by omega
        rw [setRun_get_gt w.order a j cid NT.id ha hgt]
        exact hidj
    have hlook : mapLookup (deselectAll (wEnd S)).map idj = mapLookup w.map idj := by
      rw [hmapfin]
      exact mapLookup_mapSet_other w.map (fresh a) idj (some NT) (Ne.symm hne)
    simp only [taskListGet, hget, hlook, hidj]

/-- Scenario D fixture: one trusted Dataintegration task, active and (being
active) selected, with no explicit selection. -/
def changeDocD : WState :=
  mkDoc [{ mkTask "d0" TaskType.dataintegration "s" with trusted := true }] 0 []

/-- Scenario D, concretely: converting the trusted active Dataintegration
task of `changeDocD` to Notebookcell replaces it in place (one compound
`set`, one undo group) and the rebuilt entity is untrusted. -/
theorem changeTaskType_spec_witness :
    (changeTaskTypeAction changeDocD TaskType.notebookcell (fun _ => "f0")).order =
      changeDocD.order.take 0 ++ ["f0"] ++ changeDocD.order.drop (0 + 1) ∧
    (changeTaskTypeAction changeDocD TaskType.notebookcell (fun _ => "f0")).undoStack =
      changeDocD.undoStack ++ [[Delta.dset 0 ["d0"] ["f0"]]] ∧
    (changeTaskTypeAction changeDocD TaskType.notebookcell (fun _ => "f0")).depth = 0 ∧
    (changeTaskTypeAction changeDocD TaskType.notebookcell (fun _ => "f0")).selected = [] ∧
    (changeTaskTypeAction changeDocD TaskType.notebookcell (fun _ => "f0")).raw = ((0 : Nat) : Int) ∧
    (∃ t : TaskModel,
      taskListGet (changeTaskTypeAction changeDocD TaskType.notebookcell (fun _ => "f0")) 0 =
        some t ∧
      t.id = "f0" ∧ t.ttype = TaskType.notebookcell ∧
      t.text = ({ mkTask "d0" TaskType.dataintegration "s" with trusted := true } : TaskModel).text ∧
      t.metadata = ({ mkTask "d0" TaskType.dataintegration "s" with trusted := true } : TaskModel).metadata ∧
      t.outputs = [] ∧
      t.trusted = (if TaskType.notebookcell = TaskType.notebookcell ∧
        ({ mkTask "d0" TaskType.dataintegration "s" with trusted := true } : TaskModel).ttype =
          TaskType.dataintegration then false
        else ({ mkTask "d0" TaskType.dataintegration "s" with trusted := true } : TaskModel).trusted)) ∧
    (∀ j, j < changeDocD.order.length → j ≠ 0 →
      taskListGet (changeTaskTypeAction changeDocD TaskType.notebookcell (fun _ => "f0")) j =
        taskListGet changeDocD j) :=
  changeTaskType_spec changeDocD TaskType.notebookcell (fun _ => "f0") 0 "d0"
    { mkTask "d0" TaskType.dataintegration "s" with trusted := true }
    rfl rfl (by decide) (by decide) rfl rfl rfl (by decide) rfl (by decide)

/-! ## Claim C1: order/cache coherence -/

/-- The coherence invariant: every cached entry is a live, non-disposed
entity; every id in the current order is cached; and every id mentioned by a
delta anywhere in the undo machinery (undo stack, redo stack, pending
compound group) is cached.  The last three conjuncts are what makes
undo/redo replay safe: a replayed `add`/`set` finds its ids already cached,
so the materialization switch is never consulted. -/
def coherent (w : WState) : Prop :=
  (∀ p ∈ w.map, ∃ t, p.2 = some t ∧ t.disposed = false) ∧
  (∀ id ∈ w.order, mapHas w.map id = true) ∧
  (∀ g ∈ w.undoStack, ∀ d ∈ g, ∀ id ∈ deltaIds d, mapHas w.map id = true) ∧
  (∀ g ∈ w.redoStack, ∀ d ∈ g, ∀ id ∈ deltaIds d, mapHas w.map id = true) ∧
  (∀ d ∈ w.pending, ∀ id ∈ deltaIds d, mapHas w.map id = true)

theorem mem_mapSet (m : TaskMap) (k : String) (v : Option TaskModel) :
    ∀ p ∈ mapSet m k v, p ∈ m ∨ p = (k, v) := by
  induction m with
  | nil =>
      intro p hp
      simp only [mapSet, List.mem_singleton] at hp
      exact Or.inr hp
  | cons q rest ih =>
      obtain ⟨k2, v2⟩ := q
      intro p hp
      rw [mapSet] at hp
      by_cases hk : k2 = k
      · rw [if_pos hk] at hp
        rcases List.mem_cons.mp hp with h | h
        · exact Or.inr h
        · exact Or.inl (List.mem_cons_of_mem _ h)
      · rw [if_neg hk] at hp
        rcases List.mem_cons.mp hp with h | h
        · exact Or.inl (h ▸ List.mem_cons_self _ _)
        · rcases ih p h with h2 | h2
          · exact Or.inl (List.mem_cons_of_mem _ h2)
          · exact Or.inr h2

theorem mapHas_mapSet_mono (m : TaskMap) (k id : String) (v : Option TaskModel)
    (h : mapHas m id = true) : mapHas (mapSet m k v) id = true := by
  by_cases hk : k = id
  · subst hk
    exact mapHas_mapSet_self m k v
  · rw [mapHas, mapLookup_mapSet_other m k id v hk]
    exact h

theorem mapLookup_mem (m : TaskMap) (k : String) :
    ∀ (v : Option TaskModel), mapLookup m k = some v → (k, v) ∈ m := by
  induction m with
  | nil =>
      intro v h
      exact absurd h (by rw [mapLookup]; simp)
  | cons q rest ih =>
      obtain ⟨k2, v2⟩ := q
      intro v h
      rw [mapLookup] at h
      by_cases hk : k2 = k
      · rw [if_pos hk] at h
        subst hk
        obtain rfl : v2 = v := by
          injection h
        exact List.mem_cons_self _ _
      · rw [if_neg hk] at h
        exact List.mem_cons_of_mem _ (ih v h)

theorem mem_insertRun (l : List α) (i : Nat) (xs : List α) (x : α)
    (h : x ∈ insertRun l i xs) : x ∈ l ∨ x ∈ xs := by
  rw [insertRun, List.append_assoc] at h
  rcases List.mem_append.mp h with h2 | h2
  · exact Or.inl (List.take_subset i l h2)
  · rcases List.mem_append.mp h2 with h3 | h3
    · exact Or.inr h3
    · exact Or.inl (List.drop_subset i l h3)

theorem mem_applyDeltaOrder (l : List String) (e : Delta) (id : String)
    (h : id ∈ applyDeltaOrder l e) : id ∈ l ∨ id ∈ newIds e := by
  cases e with
  | dadd i vs => exact mem_insertRun l i vs id h
  | drem i vs =>
      rcases List.mem_append.mp h with h2 | h2
      · exact Or.inl (List.take_subset i l h2)
      · exact Or.inl (List.drop_subset _ l h2)
  | dset i olds news =>
      rcases List.mem_append.mp h with h2 | h2
      · rcases List.mem_append.mp h2 with h3 | h3
        · exact Or.inl (List.take_subset i l h3)
        · exact Or.inr h3
      · exact Or.inl (List.drop_subset _ l h2)
  | dmove f t =>
      cases hg : l.get? f with
      | none =>
          simp only [applyDeltaOrder, moveItem, hg] at h
          exact Or.inl h
      | some x =>
          simp only [applyDeltaOrder, moveItem, hg] at h
          by_cases ht : t < l.length
          · rw [if_pos ht] at h
            rcases mem_insertRun _ t [x] id h with h2 | h2
            · rw [eraseIdx_take_drop] at h2
              rcases List.mem_append.mp h2 with h3 | h3
              · exact Or.inl (List.take_subset f l h3)
              · exact Or.inl (List.drop_subset _ l h3)
            · rw [List.mem_singleton] at h2
              subst h2
              exact Or.inl (List.get?_mem hg)
          · rw [if_neg ht] at h
            exact Or.inl h

theorem mem_deltaIds_invert (d : Delta) (id : String)
    (h : id ∈ deltaIds (invertDelta d)) : id ∈ deltaIds d := by
  cases d with
  | dadd i vs => exact h
  | drem i vs => exact h
  | dset i olds news =>
      rw [invertDelta, deltaIds] at h
      rw [deltaIds]
      rcases List.mem_append.mp h with h2 | h2
      · exact List.mem_append.mpr (Or.inr h2)
      · exact List.mem_append.mpr (Or.inl h2)
  | dmove f t => exact h

theorem mem_newIds_deltaIds (e : Delta) (id : String) (h : id ∈ newIds e) :
    id ∈ deltaIds e := by
  cases e with
  | dadd i vs => exact h
  | drem i vs => exact absurd h (List.not_mem_nil id)
  | dset i olds news =>
      rw [deltaIds]
      exact List.mem_append.mpr (Or.inr h)
  | dmove f t => exact absurd h (List.not_mem_nil id)

theorem dbLookup_dbSet_self (d : TypeDB) (k : String) (v : String) :
    dbLookup (dbSet d k v) k = some v := by
  induction d with
  | nil => simp [dbSet, dbLookup]
  | cons p rest ih =>
      obtain ⟨k2, v2⟩ := p
      rw [dbSet]
      by_cases hk : k2 = k
      · rw [if_pos hk, dbLookup, if_pos rfl]
      · rw [if_neg hk, dbLookup, if_neg hk, ih]

theorem contains_of_mem (l : List String) (x : String) (h : x ∈ l) :
    l.contains x = true := by
  induction l with
  | nil => exact absurd h (List.not_mem_nil x)
  | cons a as ih =>
      rcases List.mem_cons.mp h with h2 | h2
      · subst h2
        simp [List.contains_cons]
      · simp only [List.contains_cons, ih h2, Bool.or_true]

theorem mapHas_filter_contains (m : TaskMap) (l : List String) (id : String) :
    mapHas m id = true → l.contains id = true →
    mapHas (m.filter (fun p => l.contains p.1)) id = true := by
  induction m with
  | nil =>
      intro hs _
      exact absurd hs (by rw [mapHas, mapLookup]; simp)
  | cons q rest ih =>
      obtain ⟨k, v⟩ := q
      intro hs hc
      rw [List.filter_cons]
      by_cases hk : k = id
      · subst hk
        rw [if_pos (by simpa using hc)]
        rw [mapHas, mapLookup, if_pos rfl]
        rfl
      · rw [mapHas, mapLookup, if_neg hk] at hs
        by_cases hkl : l.contains k = true
        · rw [if_pos (by simpa using hkl)]
          rw [mapHas, mapLookup, if_neg hk]
          exact ih hs hc
        · rw [if_neg (by simpa using hkl)]
          exact ih hs hc

theorem mem_dropLast (l : List α) : ∀ (x : α), x ∈ l.dropLast → x ∈ l := by
  induction l with
  | nil =>
      intro x h
      exact absurd h (List.not_mem_nil x)
  | cons a as ih =>
      intro x h
      cases as with
      | nil => exact absurd h (List.not_mem_nil x)
      | cons b bs =>
          have h2 : x ∈ a :: (b :: bs).dropLast := h
          rcases List.mem_cons.mp h2 with h3 | h3
          · exact h3 ▸ List.mem_cons_self _ _
          · exact List.mem_cons_of_mem a (ih x h3)

theorem getLast?_mem (l : List α) : ∀ (x : α), l.getLast? = some x → x ∈ l := by
  induction l with
  | nil =>
      intro x h
      exact absurd h (by simp)
  | cons a as ih =>
      intro x h
      cases as with
      | nil =>
          have h2 : a = x := by simpa using h
          exact h2 ▸ List.mem_cons_self _ _
      | cons b bs =>
          have h2 : (b :: bs).getLast? = some x := by
            simpa [List.getLast?_cons_cons] using h
          exact List.mem_cons_of_mem a (ih x h2)

/-- Caching a freshly built (non-disposed) entity preserves coherence
(`TaskList.insert`/`set` call `_taskMap.set(task.id, task)` before touching
the order). -/
theorem coherent_mapSet (w : WState) (t : TaskModel) (ht : t.disposed = false)
    (hw : coherent w) : coherent { w with map := mapSet w.map t.id (some t) } := by
  obtain ⟨h1, h2, h3, h4, h5⟩ := hw
  refine ⟨?_, ?_, ?_, ?_, ?_⟩
  · intro p hp
    rcases mem_mapSet w.map t.id (some t) p hp with h | h
    · exact h1 p h
    · subst h
      exact ⟨t, rfl, ht⟩
  · intro id hid
    exact mapHas_mapSet_mono _ _ _ _ (h2 id hid)
  · intro g hg d hd id hid
    exact mapHas_mapSet_mono _ _ _ _ (h3 g hg d hd id hid)
  · intro g hg d hd id hid
    exact mapHas_mapSet_mono _ _ _ _ (h4 g hg d hd id hid)
  · intro d hd id hid
    exact mapHas_mapSet_mono _ _ _ _ (h5 d hd id hid)

/-- Replaying any event whose ids are all cached preserves coherence and
leaves the entity map untouched. -/
theorem applyEvent_coherent (w : WState) (e : Delta) (hw : coherent w)
    (he : ∀ id ∈ deltaIds e, mapHas w.map id = true) :
    coherent (applyEvent w e) ∧ (applyEvent w e).map = w.map := by
  have hmap : (applyEvent w e).map = w.map := by
    rw [applyEvent_map]
    exact onOrderEvent_cached w.db w.map e
      (fun id hid => he id (mem_newIds_deltaIds e id hid))
  obtain ⟨h1, h2, h3, h4, h5⟩ := hw
  refine ⟨⟨?_, ?_, ?_, ?_, ?_⟩, hmap⟩
  · rw [hmap]
    exact h1
  · intro id hid
    rw [hmap]
    rw [applyEvent_order] at hid
    rcases mem_applyDeltaOrder w.order e id hid with h | h
    · exact h2 id h
    · exact he id (mem_newIds_deltaIds e id h)
  · intro g hg d hd id hid
    rw [hmap]
    rw [applyEvent_undoStack] at hg
    exact h3 g hg d hd id hid
  · intro g hg d hd id hid
    rw [hmap]
    rw [applyEvent_redoStack] at hg
    exact h4 g hg d hd id hid
  · intro d hd id hid
    rw [hmap]
    rw [applyEvent_pending] at hd
    exact h5 d hd id hid

/-- Recording a delta whose ids are all cached preserves coherence (the
discarded redo stack is trivially coherent). -/
theorem recordDelta_coherent (w : WState) (d : Delta) (hw : coherent w)
    (hd : ∀ id ∈ deltaIds d, mapHas w.map id = true) : coherent (recordDelta w d) := by
  obtain ⟨h1, h2, h3, h4, h5⟩ := hw
  rw [recordDelta]
  split
  · refine ⟨h1, h2, h3, ?_, ?_⟩
    · intro g hg
      exact absurd hg (List.not_mem_nil g)
    · intro d2 hd2 id hid
      rcases List.mem_append.mp hd2 with h | h
      · exact h5 d2 h id hid
      · rw [List.mem_singleton] at h
        subst h
        exact hd id hid
  · refine ⟨h1, h2, ?_, ?_, h5⟩
    · intro g hg d2 hd2 id hid
      rcases List.mem_append.mp hg with h | h
      · exact h3 g h d2 hd2 id hid
      · rw [List.mem_singleton] at h
        subst h
        rw [List.mem_singleton] at hd2
        subst hd2
        exact hd id hid
    · intro g hg
      exact absurd hg (List.not_mem_nil g)

/-- Replaying a list of events with cached ids: coherence is preserved and
the map never changes. -/
theorem applyEvents_coherent (es : List Delta) : ∀ (w : WState), coherent w →
    (∀ d ∈ es, ∀ id ∈ deltaIds d, mapHas w.map id = true) →
    coherent (applyEvents w es) ∧ (applyEvents w es).map = w.map := by
  induction es with
  | nil =>
      intro w hw _
      exact ⟨hw, rfl⟩
  | cons e rest ih =>
      intro w hw he
      have h0 := applyEvent_coherent w e hw (he e (List.mem_cons_self e rest))
      have hrest := ih (applyEvent w e) h0.1 (by
        intro d hd id hid
        rw [h0.2]
        exact he d (List.mem_cons_of_mem e hd) id hid)
      refine ⟨hrest.1, ?_⟩
      show (applyEvents (applyEvent w e) rest).map = w.map
      rw [hrest.2, h0.2]

/-- Materialization succeeds — with a live entity — whenever the backing
store holds a recognized type marker for the id. -/
theorem materialize_marker (d : TypeDB) (id : String) (ty : TaskType)
    (hdb : dbLookup d (id ++ ".type") = some (typeName ty)) :
    ∃ t, materialize d id = some t ∧ t.disposed = false := by
  cases ty with
  | dataintegration =>
      refine ⟨createDataintegrationTask id none, ?_, rfl⟩
      simp [materialize, hdb, typeName]
  | notebookcell =>
      refine ⟨createNotebookcellTask id none, ?_, rfl⟩
      simp [materialize, hdb, typeName]

/-- An `add`/`set` event carrying a single new id whose type marker is
present in the backing store preserves coherence even when the id is not yet
cached: reconciliation caches a freshly materialized live entity for it.
This is the collaborative-sync path. -/
theorem applyEvent_extern_coherent (w : WState) (e : Delta) (id : String) (ty : TaskType)
    (hnew : newIds e = [id])
    (hdb : dbLookup w.db (id ++ ".type") = some (typeName ty))
    (hw : coherent w) :
    coherent (applyEvent w e) ∧
    mapHas (applyEvent w e).map id = true ∧
    (∀ id2, mapHas w.map id2 = true → mapHas (applyEvent w e).map id2 = true) := by
  have hmap : (applyEvent w e).map =
      (if mapHas w.map id then w.map else mapSet w.map id (materialize w.db id)) := by
    rw [applyEvent_map]
    cases e with
    | dadd j vs =>
        simp only [newIds] at hnew
        subst hnew
        rfl
    | drem j vs =>
        simp only [newIds] at hnew
        exact absurd hnew (by simp)
    | dset j olds vs =>
        simp only [newIds] at hnew
        subst hnew
        rfl
    | dmove f t =>
        simp only [newIds] at hnew
        exact absurd hnew (by simp)
  obtain ⟨tmat, hmat, hmatd⟩ := materialize_marker w.db id ty hdb
  obtain ⟨h1, h2, h3, h4, h5⟩ := hw
  have hgood : ∀ p ∈ (applyEvent w e).map, ∃ t, p.2 = some t ∧ t.disposed = false := by
    rw [hmap]
    by_cases hc : mapHas w.map id
    · rw [if_pos hc]
      exact h1
    · rw [if_neg hc]
      intro p hp
      rcases mem_mapSet w.map id (materialize w.db id) p hp with h | h
      · exact h1 p h
      · subst h
        exact ⟨tmat, hmat, hmatd⟩
  have hhas : ∀ id2, mapHas w.map id2 = true → mapHas (applyEvent w e).map id2 = true := by
    intro id2 h
    rw [hmap]
    by_cases hc : mapHas w.map id
    · rw [if_pos hc]
      exact h
    · rw [if_neg hc]
      exact mapHas_mapSet_mono _ _ _ _ h
  have hhasid : mapHas (applyEvent w e).map id = true := by
    rw [hmap]
    by_cases hc : mapHas w.map id
    · rw [if_pos hc]
      exact hc
    · rw [if_neg hc]
      exact mapHas_mapSet_self _ _ _
  refine ⟨⟨hgood, ?_, ?_, ?_, ?_⟩, hhasid, hhas⟩
  · intro id2 hid2
    rw [applyEvent_order] at hid2
    rcases mem_applyDeltaOrder w.order e id2 hid2 with h | h
    · exact hhas id2 (h2 id2 h)
    · rw [hnew, List.mem_singleton] at h
      subst h
      exact hhasid
  · intro g hg d hd id2 hid2
    rw [applyEvent_undoStack] at hg
    exact hhas id2 (h3 g hg d hd id2 hid2)
  · intro g hg d hd id2 hid2
    rw [applyEvent_redoStack] at hg
    exact hhas id2 (h4 g hg d hd id2 hid2)
  · intro d hd id2 hid2
    rw [applyEvent_pending] at hd
    exact hhas id2 (h5 d hd id2 hid2)

/-- `TaskList.insert` (and `push`) with a fresh entity preserves coherence:
the entity is cached before the order changes. -/
theorem wInsert_coherent (w : WState) (i : Nat) (t : TaskModel)
    (ht : t.disposed = false) (hw : coherent w) : coherent (wInsert w i t) := by
  rw [wInsert_eq]
  have hw1 := coherent_mapSet w t ht hw
  have hids : ∀ id ∈ deltaIds (Delta.dadd (min i w.order.length) [t.id]),
      mapHas (mapSet w.map t.id (some t)) id = true := by
    intro id hid
    rw [deltaIds, List.mem_singleton] at hid
    subst hid
    exact mapHas_mapSet_self _ _ _
  have h2 := applyEvent_coherent { w with map := mapSet w.map t.id (some t) }
    (Delta.dadd (min i w.order.length) [t.id]) hw1 hids
  refine recordDelta_coherent _ _ h2.1 ?_
  intro id hid
  rw [h2.2]
  exact hids id hid

/-- Every TaskList operation — local mutators with fresh entities, compound
boundaries, undo/redo, history clearing, and marker-first collaborative
changes — preserves the coherence invariant. -/
theorem applyOp_coherent (w : WState) (op : TLOp) (hw : coherent w) (hop : opWF op) :
    coherent (applyOp w op) := by
  cases op with
  | opInsert i t => exact wInsert_coherent w i t hop hw
  | opPush t => exact wInsert_coherent w w.order.length t hop hw
  | opSet i t =>
      show coherent (wSet w i t)
      cases hg : w.order.get? i with
      | none =>
          simp only [wSet, hg]
          exact hw
      | some old =>
          rw [wSet_eq w i t old hg]
          have hw1 := coherent_mapSet w t hop hw
          have hids : ∀ id ∈ deltaIds (Delta.dset i [old] [t.id]),
              mapHas (mapSet w.map t.id (some t)) id = true := by
            intro id hid
            rw [deltaIds] at hid
            rcases List.mem_append.mp hid with h | h
            · rw [List.mem_singleton] at h
              rw [h]
              exact mapHas_mapSet_mono _ _ _ _ (hw.2.1 old (List.get?_mem hg))
            · rw [List.mem_singleton] at h
              subst h
              exact mapHas_mapSet_self _ _ _
          have h2 := applyEvent_coherent { w with map := mapSet w.map t.id (some t) }
            (Delta.dset i [old] [t.id]) hw1 hids
          refine recordDelta_coherent _ _ h2.1 ?_
          intro id hid
          rw [h2.2]
          exact hids id hid
  | opRemove i =>
      show coherent (wRemove w i)
      cases hg : w.order.get? i with
      | none =>
          simp only [wRemove, hg]
          exact hw
      | some old =>
          rw [wRemove_eq w i old hg]
          have hids : ∀ id ∈ deltaIds (Delta.drem i [old]), mapHas w.map id = true := by
            intro id hid
            rw [deltaIds, List.mem_singleton] at hid
            rw [hid]
            exact hw.2.1 old (List.get?_mem hg)
          have h2 := applyEvent_coherent w (Delta.drem i [old]) hw hids
          refine recordDelta_coherent _ _ h2.1 ?_
          intro id hid
          rw [h2.2]
          exact hids id hid
  | opMove f t =>
      show coherent (wMove w f t)
      rw [wMove]
      split
      · have hids : ∀ id ∈ deltaIds (Delta.dmove f t), mapHas w.map id = true := by
          intro id hid
          exact absurd hid (List.not_mem_nil id)
        have h2 := applyEvent_coherent w (Delta.dmove f t) hw hids
        refine recordDelta_coherent _ _ h2.1 ?_
        intro id hid
        rw [h2.2]
        exact hids id hid
      · exact hw
  | opClear =>
      show coherent (wClear w)
      cases horder : w.order with
      | nil =>
          simp only [wClear, horder]
          exact hw
      | cons a rest =>
          simp only [wClear, horder]
          have hids : ∀ id ∈ deltaIds (Delta.drem 0 (a :: rest)), mapHas w.map id = true := by
            intro id hid
            rw [deltaIds] at hid
            exact hw.2.1 id (horder ▸ hid)
          have h2 := applyEvent_coherent w (Delta.drem 0 (a :: rest)) hw hids
          refine recordDelta_coherent _ _ h2.1 ?_
          intro id hid
          rw [h2.2]
          exact hids id hid
  | opUndo =>
      show coherent (wUndo w)
      rw [wUndo]
      cases hlast : w.undoStack.getLast? with
      | none => exact hw
      | some g =>
          have hgmem : g ∈ w.undoStack := getLast?_mem w.undoStack g hlast
          obtain ⟨h1, h2, h3, h4, h5⟩ := hw
          have hw2 : coherent { w with undoStack := w.undoStack.dropLast, redoStack := w.redoStack ++ [g] } := by
            refine ⟨h1, h2, ?_, ?_, h5⟩
            · intro g2 hg2 d hd id hid
              exact h3 g2 (mem_dropLast _ g2 hg2) d hd id hid
            · intro g2 hg2 d hd id hid
              rcases List.mem_append.mp hg2 with h | h
              · exact h4 g2 h d hd id hid
              · rw [List.mem_singleton] at h
                subst h
                exact h3 g2 hgmem d hd id hid
          exact (applyEvents_coherent (g.reverse.map invertDelta) _ hw2 (by
            intro d hd id hid
            obtain ⟨d0, hd0, hde⟩ := List.mem_map.mp hd
            subst hde
            exact h3 g hgmem d0 (List.mem_reverse.mp hd0) id
              (mem_deltaIds_invert d0 id hid))).1
  | opRedo =>
      show coherent (wRedo w)
      rw [wRedo]
      cases hlast : w.redoStack.getLast? with
      | none => exact hw
      | some g =>
          have hgmem : g ∈ w.redoStack := getLast?_mem w.redoStack g hlast
          obtain ⟨h1, h2, h3, h4, h5⟩ := hw
          have hw2 : coherent { w with redoStack := w.redoStack.dropLast, undoStack := w.undoStack ++ [g] } := by
            refine ⟨h1, h2, ?_, ?_, h5⟩
            · intro g2 hg2 d hd id hid
              rcases List.mem_append.mp hg2 with h | h
              · exact h3 g2 h d hd id hid
              · rw [List.mem_singleton] at h
                subst h
                exact h4 g2 hgmem d hd id hid
            · intro g2 hg2 d hd id hid
              exact h4 g2 (mem_dropLast _ g2 hg2) d hd id hid
          exact (applyEvents_coherent g _ hw2 (by
            intro d hd id hid
            exact h4 g hgmem d hd id hid)).1
  | opClearUndo =>
      show coherent (wClearUndo w)
      obtain ⟨h1, h2, h3, h4, h5⟩ := hw
      refine ⟨?_, ?_, ?_, ?_, ?_⟩
      · intro p hp
        exact h1 p (List.mem_of_mem_filter hp)
      · intro id hid
        exact mapHas_filter_contains w.map w.order id (h2 id hid)
          (contains_of_mem w.order id hid)
      · intro g hg
        exact absurd hg (List.not_mem_nil g)
      · intro g hg
        exact absurd hg (List.not_mem_nil g)
      · intro d hd
        exact absurd hd (List.not_mem_nil d)
  | opBegin u =>
      show coherent (wBegin w u)
      obtain ⟨h1, h2, h3, h4, h5⟩ := hw
      rw [wBegin]
      split
      · refine ⟨h1, h2, h3, h4, ?_⟩
        intro d hd
        exact absurd hd (List.not_mem_nil d)
      · exact ⟨h1, h2, h3, h4, h5⟩
  | opEnd =>
      show coherent (wEnd w)
      obtain ⟨h1, h2, h3, h4, h5⟩ := hw
      rw [wEnd.eq_def]
      split
      · exact ⟨h1, h2, h3, h4, h5⟩
      · split
        · refine ⟨h1, h2, ?_, h4, ?_⟩
          · intro g hg d hd id hid
            rcases List.mem_append.mp hg with h | h
            · exact h3 g h d hd id hid
            · rw [List.mem_singleton] at h
              subst h
              exact h5 d hd id hid
          · intro d hd
            exact absurd hd (List.not_mem_nil d)
        · refine ⟨h1, h2, h3, h4, ?_⟩
          intro d hd
          exact absurd hd (List.not_mem_nil d)
      · exact ⟨h1, h2, h3, h4, h5⟩
  | opExternAdd i id ty =>
      show coherent (wExternAdd w i id ty)
      have hdb : dbLookup (dbSet w.db (id ++ ".type") (typeName ty)) (id ++ ".type") =
          some (typeName ty) := dbLookup_dbSet_self w.db _ _
      have hw1 : coherent { w with db := dbSet w.db (id ++ ".type") (typeName ty) } := hw
      have h2 := applyEvent_extern_coherent
        { w with db := dbSet w.db (id ++ ".type") (typeName ty) }
        (Delta.dadd (min i w.order.length) [id]) id ty rfl hdb hw1
      refine recordDelta_coherent _ _ h2.1 ?_
      intro id2 hid2
      rw [deltaIds, List.mem_singleton] at hid2
      subst hid2
      exact h2.2.1
  | opExternSet i id ty =>
      show coherent (wExternSet w i id ty)
      cases hg : w.order.get? i with
      | none =>
          simp only [wExternSet, hg]
          exact hw
      | some old =>
          simp only [wExternSet, hg]
          have hdb : dbLookup (dbSet w.db (id ++ ".type") (typeName ty)) (id ++ ".type") =
              some (typeName ty) := dbLookup_dbSet_self w.db _ _
          have hw1 : coherent { w with db := dbSet w.db (id ++ ".type") (typeName ty) } := hw
          have h2 := applyEvent_extern_coherent
            { w with db := dbSet w.db (id ++ ".type") (typeName ty) }
            (Delta.dset i [old] [id]) id ty rfl hdb hw1
          refine recordDelta_coherent _ _ h2.1 ?_
          intro id2 hid2
          rw [deltaIds] at hid2
          rcases List.mem_append.mp hid2 with h | h
          · rw [List.mem_singleton] at h
            rw [h]
            exact h2.2.2 old (hw.2.1 old (List.get?_mem hg))
          · rw [List.mem_singleton] at h
            subst h
            exact h2.2.1

/-- Coherence is preserved along any well-formed operation sequence. -/
theorem runOps_coherent (ops : List TLOp) : ∀ (w : WState), (∀ op ∈ ops, opWF op) →
    coherent w → coherent (runOps w ops) := by
  induction ops with
  | nil =>
      intro w _ hw
      exact hw
  | cons op rest ih =>
      intro w hwf hw
      exact ih (applyOp w op)
        (fun o ho => hwf o (List.mem_cons_of_mem op ho))
        (applyOp_coherent w op hw (hwf op (List.mem_cons_self op rest)))

/-- The freshly constructed task list is coherent. -/
theorem initW_coherent : coherent initW :=
  ⟨fun p hp => absurd hp (List.not_mem_nil p),
   fun id h => absurd h (List.not_mem_nil id),
   fun g hg => absurd hg (List.not_mem_nil g),
   fun g hg => absurd hg (List.not_mem_nil g),
   fun d hd => absurd hd (List.not_mem_nil d)⟩

/-- **C1.**  Order/cache coherence (the undoable order list is modelled from
the spec's OrderedStore contract): after any sequence of TaskList operations
— insert, push, set, remove, move, clear, undo, redo, clearUndo, compound
boundaries, and marker-first collaborative add/set — starting from a fresh
document, `TaskList.get(i)` returns a defined, non-disposed entity for every
index `0 ≤ i < length`.  Local mutators cache the entity before mutating the
order; collaborative changes write the type marker before the order change,
so materialization succeeds; ids re-introduced by undo/redo are still cached
because eviction happens only in `clearUndo`, which also discards the very
history that could mention them. -/
theorem taskList_coherence (ops : List TLOp) (hwf : ∀ op ∈ ops, opWF op) :
    ∀ i, i < (runOps initW ops).order.length →
      ∃ t, taskListGet (runOps initW ops) i = some t ∧ t.disposed = false := by
  intro i hi
  have hco := runOps_coherent ops initW hwf initW_coherent
  obtain ⟨idv, hidv⟩ : ∃ x, (runOps initW ops).order.get? i = some x := by
    cases hg : (runOps initW ops).order.get? i with
    | none =>
        exfalso
        have := List.get?_eq_none.mp hg
        omega
    | some x => exact ⟨x, rfl⟩
  have hmem : idv ∈ (runOps initW ops).order := List.get?_mem hidv
  have hhas : mapHas (runOps initW ops).map idv = true := hco.2.1 idv hmem
  cases hl : mapLookup (runOps initW ops).map idv with
  | none =>
      rw [mapHas, hl] at hhas
      exact absurd hhas (by simp)
  | some v =>
      have hv : (idv, v) ∈ (runOps initW ops).map := mapLookup_mem _ idv v hl
      obtain ⟨t, htv, htd⟩ := hco.1 (idv, v) hv
      refine ⟨t, ?_, htd⟩
      simp only [taskListGet, hidv, hl]
      exact htv

/-- A representative operation sequence: local push/insert, a compound
removal, undo (re-introducing a removed id), a collaborative add, a move,
history clearing with cache eviction, and an undo against empty history. -/
def opsC1 : List TLOp :=
  [TLOp.opPush (mkTask "x" TaskType.dataintegration "1"),
   TLOp.opInsert 0 (mkTask "y" TaskType.notebookcell "2"),
   TLOp.opBegin true, TLOp.opRemove 0, TLOp.opEnd,
   TLOp.opUndo,
   TLOp.opExternAdd 1 "z" TaskType.dataintegration,
   TLOp.opMove 0 2,
   TLOp.opClearUndo,
   TLOp.opUndo]

/-- Running `opsC1` leaves a 3-task list whose every position holds a live
entity. -/
theorem taskList_coherence_witness :
    (∃ t, taskListGet (runOps initW opsC1) 0 = some t ∧ t.disposed = false) ∧
    (∃ t, taskListGet (runOps initW opsC1) 1 = some t ∧ t.disposed = false) ∧
    (∃ t, taskListGet (runOps initW opsC1) 2 = some t ∧ t.disposed = false) :=
  ⟨taskList_coherence opsC1 (by decide) 0 (by decide),
   taskList_coherence opsC1 (by decide) 1 (by decide),
   taskList_coherence opsC1 (by decide) 2 (by decide)⟩

end Taskbook
